import Mathlib

/-!
# go-struct-enum: a shallow embedding of `enum.go`

The Go package `enum` offers a generic container `Enum[T]` (with `T ~int | ~string`),
the interface `Enummer[T]` it satisfies, and list-driven parsing and ordering
functions.  This file embeds those functions in Lean and proves properties about them.

Modelling decisions.

* A Go panic is the `Except.error` branch, carrying the panic message; a normal return
  is `Except.ok`.
* `Parse(list)`, `GreaterThan(list)` ... first check the list and then return a closure.
  They are embedded as `Except String (closure)`: the outer `Except` is the panic raised
  when the list is supplied, the closure is the function returned otherwise.
* An `Enummer[T]` interface value is modelled by its dynamic type (`reflect.TypeOf`),
  the identity of the instance it refers to, and the `Enum[T]` container it embeds; the
  methods of the interface are the ones promoted from the embedded container.  The nil
  interface is not an instance: it only appears as the `none` result of `Parse`.
* The scalar type `T` is a type parameter with decidable equality; Go's `int` is
  embedded as `Int` (only `==` is ever applied to scalars, so width does not matter).
* Go's `string` is embedded as `String`, a sequence of Unicode characters, and a byte
  slice as the list of the characters it spells.
* A method with a pointer receiver (`Scan`, `UnmarshalJSON`) returns the container after
  the call next to its error.
* The package delegates to the standard library for text rendering (`fmt`) and for JSON
  (`encoding/json`).  These are not part of the package; they are modelled from the
  specification, and each such definition says so.
-/

namespace enum

/-! ## Data model -/

/-- The constraint `~int | ~string` of the source, as far as the package uses it:
the scalar can be rendered by `fmt.Sprintf("%v", v)`. -/
class Scalar (T : Type) where
  /-- The rendering `fmt.Sprintf("%v", v)`. -/
  Sprintv : T → String

/-- Modelled from the spec: `fmt.Sprintf("%v", v)` of the Go standard library (not part
of the package) on an integer, "for integer-like T, decimal". -/
instance : Scalar Int := ⟨fun n => toString n⟩

/-- Modelled from the spec: `fmt.Sprintf("%v", v)` of the Go standard library (not part
of the package) on a string, "for string-like T, the string itself". -/
instance : Scalar String := ⟨fun s => s⟩

/-- The struct `Enum[T]`: one field `val`. -/
structure Enum (T : Type) where
  /-- The value of the enum. -/
  val : T
deriving DecidableEq, Repr

/-- The kinds of `reflect.Type` that `getEnummerType` tells apart. -/
inductive Kind where
  | Ptr
  | Other
deriving DecidableEq, Repr

/-- A `reflect.Type`: a named (defined) type, or a pointer to a type. -/
inductive RType where
  | named (name : String)
  | ptr (elem : RType)
deriving DecidableEq, Repr

/-- The method `reflect.Type.Kind`. -/
def RType.Kind : RType → Kind
  | .named _ => .Other
  | .ptr _ => .Ptr

/-- The method `reflect.Type.Elem`; the source calls it on pointer types only. -/
def RType.Elem : RType → RType
  | .named n => .named n
  | .ptr t => t

/-- The rendering of a type by the verb `%T`. -/
def RType.String : RType → String
  | .named n => n
  | .ptr t => "*" ++ t.String

/-- A value of interface type `Enummer[T]` that is not nil: its dynamic type, the
identity (address) of the instance, and the embedded container whose methods it
promotes. -/
structure Enummer (T : Type) where
  /-- The dynamic type, as given by `reflect.TypeOf`. -/
  dynType : RType
  /-- The identity of the instance (two instances can hold the same value). -/
  addr : Nat
  /-- The embedded container. -/
  Enum : Enum T
deriving DecidableEq, Repr

/-! ## Methods of the container -/

/-- `New` creates a new enum with the given value. -/
def New {T : Type} (val : T) : Enum T := ⟨val⟩

/-- `GetValue` returns the enum underlying value. -/
def Enum.GetValue {T : Type} (e : Enum T) : T := e.val

/-- `EqualValue` returns true if the enums underlying value are equal. -/
def Enum.EqualValue {T : Type} [DecidableEq T] (e : Enum T) (other : T) : Bool :=
  decide (e.val = other)

/-- `String` returns the string representation of the enum underlying value. -/
def Enum.String {T : Type} [Scalar T] (e : Enum T) : String :=
  Scalar.Sprintv e.val

/-- The promoted method `GetValue` of an interface value. -/
def Enummer.GetValue {T : Type} (e : Enummer T) : T := e.Enum.GetValue

/-- The promoted method `EqualValue` of an interface value. -/
def Enummer.EqualValue {T : Type} [DecidableEq T] (e : Enummer T) (other : T) : Bool :=
  e.Enum.EqualValue other

/-- The promoted method `String` of an interface value. -/
def Enummer.String {T : Type} [Scalar T] (e : Enummer T) : String :=
  e.Enum.String

/-! ## Family identity and equality -/

/-- `getEnummerType` returns the type of the enum: the pointee when the dynamic type
is a pointer, the dynamic type itself otherwise. -/
def getEnummerType {T : Type} (value : Enummer T) : RType :=
  let t := value.dynType
  if t.Kind = Kind.Ptr then t.Elem else t

/-- `compareEnummerType` returns true if the Enummer are of the same type. -/
def compareEnummerType {T : Type} (a b : Enummer T) : Bool :=
  decide (getEnummerType a = getEnummerType b)

/-- `Equal` returns true if the first Enummer is equal to the second Enummer.
It panics if the Enummer are not of the same type. -/
def Equal {T : Type} [DecidableEq T] (a b : Enummer T) : Except String Bool :=
  if !compareEnummerType a b then
    .error ("enum: different types '" ++ a.dynType.String ++ "' and '"
      ++ b.dynType.String ++ "'")
  else
    .ok (a.EqualValue b.GetValue)

/-! ## List checks -/

/-- The inner loop of `checkEnummerListType`: `e` at position `i` against every
`other` at position `j`. -/
def checkEnummerListTypeInner {T : Type} (i : Nat) (e : Enummer T) :
    List (Nat × Enummer T) → Except String Unit
  | [] => .ok ()
  | (j, other) :: rest =>
    if i ≠ j ∧ !compareEnummerType e other then
      .error ("enum: different types '" ++ e.dynType.String ++ "' and '"
        ++ other.dynType.String ++ "'")
    else
      checkEnummerListTypeInner i e rest

/-- The outer loop of `checkEnummerListType`, over the positions still to visit. -/
def checkEnummerListTypeOuter {T : Type} (all : List (Nat × Enummer T)) :
    List (Nat × Enummer T) → Except String Unit
  | [] => .ok ()
  | (i, e) :: rest =>
    match checkEnummerListTypeInner i e all with
    | .error msg => .error msg
    | .ok () => checkEnummerListTypeOuter all rest

/-- `checkEnummerListType` panics if the list is empty or if the Enummer in the list
have different types. -/
def checkEnummerListType {T : Type} (list : List (Enummer T)) : Except String Unit :=
  if list.length = 0 then
    .error "enum: list is empty"
  else
    checkEnummerListTypeOuter list.enum list.enum

/-- `existInEnummerList` returns false if the Enummer is not in the list. -/
def existInEnummerList {T : Type} [DecidableEq T] :
    List (Enummer T) → Enummer T → Except String Bool
  | [], _ => .ok false
  | other :: rest, e =>
    match Equal other e with
    | .error msg => .error msg
    | .ok true => .ok true
    | .ok false => existInEnummerList rest e

/-- The loop of `slices.IndexFunc`, from position `i` on: the first position whose
element satisfies `f`, or `-1`; a panic of `f` propagates. -/
def IndexFuncFrom {α : Type} (f : α → Except String Bool) :
    List α → Nat → Except String Int
  | [], _ => .ok (-1)
  | x :: rest, i =>
    match f x with
    | .error msg => .error msg
    | .ok true => .ok (i : Int)
    | .ok false => IndexFuncFrom f rest (i + 1)

/-- `slices.IndexFunc` returns the first index `i` satisfying `f(s[i])`, or `-1` if
none do. -/
def IndexFunc {α : Type} (s : List α) (f : α → Except String Bool) : Except String Int :=
  IndexFuncFrom f s 0

/-- `compareGetIndex` returns the index of the Enummer in the list.
It panics if the Enummer is not in the list. -/
def compareGetIndex {T : Type} [DecidableEq T] [Scalar T]
    (list : List (Enummer T)) (e : Enummer T) : Except String Int :=
  match existInEnummerList list e with
  | .error msg => .error msg
  | .ok false => .error ("enum: '" ++ e.String ++ "' not found in list")
  | .ok true => IndexFunc list (fun elem => Equal e elem)

/-! ## Parsing -/

/-- The loop of the closure returned by `Parse`: the first element whose `EqualValue`
accepts `val`, or nil. -/
def parseLoop {T : Type} [DecidableEq T] : List (Enummer T) → T → Option (Enummer T)
  | [], _ => none
  | e :: rest, val => if e.EqualValue val then some e else parseLoop rest val

/-- `Parse` parses the given string/int into an Enummer.  It panics if the Enummer in
list are not of the same type or if the list is empty.  If the string/int is not found,
the returned function returns nil. -/
def Parse {T : Type} [DecidableEq T] (list : List (Enummer T)) :
    Except String (T → Option (Enummer T)) :=
  match checkEnummerListType list with
  | .error msg => .error msg
  | .ok () => .ok (fun val => parseLoop list val)

/-- `MustParse` parses the given string/int into an Enummer.  It panics if the Enummer
in list are not of the same type or if the list is empty.  If the string/int is not
found, the returned function panics. -/
def MustParse {T : Type} [DecidableEq T] [Scalar T] (list : List (Enummer T)) :
    Except String (T → Except String (Enummer T)) :=
  match checkEnummerListType list with
  | .error msg => .error msg
  | .ok () => .ok (fun val =>
      match parseLoop list val with
      | some e => .ok e
      | none => .error ("enum: '" ++ Scalar.Sprintv val ++ "' not found"))

/-! ## Ordering -/

/-- The body shared by the four comparator closures: both indices are resolved, `a`
first, and then compared with the relational operator `op`. -/
def compareWith {T : Type} [DecidableEq T] [Scalar T] (op : Int → Int → Bool)
    (list : List (Enummer T)) (a b : Enummer T) : Except String Bool :=
  match compareGetIndex list a with
  | .error msg => .error msg
  | .ok ai =>
    match compareGetIndex list b with
    | .error msg => .error msg
    | .ok bi => .ok (op ai bi)

/-- `GreaterThan` returns true if the first Enummer is greater than the second Enummer.
Higher indices are considered higher than lower indices. -/
def GreaterThan {T : Type} [DecidableEq T] [Scalar T] (list : List (Enummer T)) :
    Except String (Enummer T → Enummer T → Except String Bool) :=
  match checkEnummerListType list with
  | .error msg => .error msg
  | .ok () => .ok (fun a b => compareWith (fun ai bi => decide (ai > bi)) list a b)

/-- `GreaterThanOrEqual` returns true if the first Enummer is greater than or equal to
the second Enummer. -/
def GreaterThanOrEqual {T : Type} [DecidableEq T] [Scalar T] (list : List (Enummer T)) :
    Except String (Enummer T → Enummer T → Except String Bool) :=
  match checkEnummerListType list with
  | .error msg => .error msg
  | .ok () => .ok (fun a b => compareWith (fun ai bi => decide (ai ≥ bi)) list a b)

/-- `LessThan` returns true if the first Enummer is less than the second Enummer. -/
def LessThan {T : Type} [DecidableEq T] [Scalar T] (list : List (Enummer T)) :
    Except String (Enummer T → Enummer T → Except String Bool) :=
  match checkEnummerListType list with
  | .error msg => .error msg
  | .ok () => .ok (fun a b => compareWith (fun ai bi => decide (ai < bi)) list a b)

/-- `LessThanOrEqual` returns true if the first Enummer is less than or equal to the
second Enummer. -/
def LessThanOrEqual {T : Type} [DecidableEq T] [Scalar T] (list : List (Enummer T)) :
    Except String (Enummer T → Enummer T → Except String Bool) :=
  match checkEnummerListType list with
  | .error msg => .error msg
  | .ok () => .ok (fun a b => compareWith (fun ai bi => decide (ai ≤ bi)) list a b)

/-! ## Instances declared by the tests and examples of the package -/

/-- The instance `&TestTypeInt{Enum[int]{v}}` of `enum_test.go`. -/
def TestTypeInt (addr : Nat) (v : Int) : Enummer Int :=
  ⟨.ptr (.named "enum.TestTypeInt"), addr, New v⟩

/-- The instance `&Test2TypeInt{Enum[int]{v}}` of `enum_test.go`. -/
def Test2TypeInt (addr : Nat) (v : Int) : Enummer Int :=
  ⟨.ptr (.named "enum.Test2TypeInt"), addr, New v⟩

/-- The instance `&TestStateCompare{enum.New(v)}` of `example_compare_test.go`. -/
def TestStateCompare (addr : Nat) (v : String) : Enummer String :=
  ⟨.ptr (.named "enum_test.TestStateCompare"), addr, New v⟩

/-- The variable `TestStateCompareUnknown`. -/
def TestStateCompareUnknown : Enummer String := TestStateCompare 0 ""

/-- The variable `TestStateComparePassed`. -/
def TestStateComparePassed : Enummer String := TestStateCompare 1 "passed"

/-- The variable `TestStateCompareSkipped`. -/
def TestStateCompareSkipped : Enummer String := TestStateCompare 2 "skipped"

/-- The variable `TestStateCompareFailed`. -/
def TestStateCompareFailed : Enummer String := TestStateCompare 3 "failed"

/-- The ordered list `TestStateCompares`. -/
def TestStateCompares : List (Enummer String) :=
  [TestStateCompareUnknown, TestStateComparePassed, TestStateCompareSkipped,
    TestStateCompareFailed]

/-- The list `[&TestTypeInt{Enum[int]{1}}, &TestTypeInt{Enum[int]{1}}]`: one family, the
value `1` held twice. -/
def TestTypeIntTwice : List (Enummer Int) := [TestTypeInt 0 1, TestTypeInt 1 1]

/-! ## How an instance is held -/

/-- The interface value that holds an instance of the concrete type `C` by value:
`reflect.TypeOf` gives `C`. -/
def heldByValue {T : Type} (C : RType) (addr : Nat) (e : Enum T) : Enummer T :=
  ⟨C, addr, e⟩

/-- The interface value that holds a pointer to an instance of the concrete type `C`:
`reflect.TypeOf` gives the pointer type `*C`. -/
def heldByPointer {T : Type} (C : RType) (addr : Nat) (e : Enum T) : Enummer T :=
  ⟨.ptr C, addr, e⟩

/-! ## Storage values: `Scan` and `Value` -/

/-- The type of error messages, Go's `string` (the name `String` is also the method
of the container). -/
abbrev Message : Type := String

/-- The Go name of the scalar type `T`, as the verb `%T` prints it. -/
class TypeName (T : Type) where
  /-- The name of the type. -/
  name : String

instance : TypeName Int := ⟨"int"⟩

instance : TypeName String := ⟨"string"⟩

/-- A value of type `interface{}` (also `driver.Value`) as a type switch on `T` sees
it: either its dynamic type is `T` and it holds `v`, or it has another dynamic type
(nil included), of which only the rendering by `%T` is kept, `int64` or `<nil>` for
example. -/
inductive GoAny (T : Type) where
  | ofT (v : T)
  | other (typeName : String)
deriving DecidableEq, Repr

/-- The rendering of the dynamic type of a value by the verb `%T`. -/
def GoAny.TypeString {T : Type} [TypeName T] : GoAny T → String
  | .ofT _ => TypeName.name T
  | .other n => n

/-- `Scan` implements the sql.Scanner interface.  It has a pointer receiver: the result
is the container after the call, together with the error returned (`none` is nil). -/
def Enum.Scan {T : Type} [TypeName T] (e : Enum T) (value : GoAny T) :
    Enum T × Option Message :=
  match value with
  | .ofT v => (⟨v⟩, none)
  | .other _ =>
    (e, some ("enum: cannot convert '" ++ value.TypeString ++ "' to '*enum.Enum["
      ++ TypeName.name T ++ "]'"))

/-- `Value` implements the driver.Valuer interface: the value and the error returned
(`none` is nil). -/
def Enum.Value {T : Type} (e : Enum T) : GoAny T × Option Message :=
  (.ofT e.val, none)

/-- The promoted method `Scan` of an interface value. -/
def Enummer.Scan {T : Type} [TypeName T] (e : Enummer T) (value : GoAny T) :
    Enummer T × Option Message :=
  ({ e with Enum := (e.Enum.Scan value).1 }, (e.Enum.Scan value).2)

/-- The promoted method `Value` of an interface value. -/
def Enummer.Value {T : Type} (e : Enummer T) : GoAny T × Option Message :=
  e.Enum.Value

/-! ## The JSON codec -/

/-- The value of a decimal digit; `none` for any other character. -/
def digitValue (c : Char) : Option Nat :=
  if '0' ≤ c ∧ c ≤ '9' then some (c.toNat - '0'.toNat) else none

/-- The number spelled by a sequence of decimal digits, continuing from `acc`; `none`
when a character is not a digit. -/
def parseDigits : List Char → Nat → Option Nat
  | [], acc => some acc
  | c :: cs, acc =>
    match digitValue c with
    | none => none
    | some d => parseDigits cs (acc * 10 + d)

/-- The integer spelled by a decimal literal: an optional minus sign followed by one or
more digits. -/
def parseDecimal : List Char → Option Int
  | [] => none
  | c :: cs =>
    if c = '-' then
      if cs = [] then none
      else
        match parseDigits cs 0 with
        | none => none
        | some n => some (-(n : Int))
    else
      match parseDigits (c :: cs) 0 with
      | none => none
      | some n => some (n : Int)

/-- The text between the double quotes of a quoted text; `none` when the data does not
start and end with a double quote. -/
def unquote : List Char → Option (List Char)
  | [] => none
  | c :: rest =>
    if c = '"' ∧ rest.getLast? = some '"' then some rest.dropLast else none

/-- Modelled from the spec: the external JSON codec on a scalar, `json.Marshal` and
`json.Unmarshal` of the Go standard library, which are not part of the package.  The spec
says of it: "integers encode as numeric literals, strings as quoted text", and decoding
gives back the scalar or a codec error.  A byte slice is modelled by the list of the
characters it spells. -/
class JSONScalar (T : Type) where
  /-- The encoding `json.Marshal(v)`. -/
  Marshal : T → Except Message (List Char)
  /-- The decoding `json.Unmarshal(data, &v)`. -/
  Unmarshal : List Char → Except Message T

/-- Modelled from the spec: the codec on integers, "a bare numeric literal": the decimal
literal of the integer, decoded by `parseDecimal`. -/
instance : JSONScalar Int where
  Marshal n := .ok (toString n).toList
  Unmarshal data :=
    match parseDecimal data with
    | some n => .ok n
    | none => .error "json: cannot unmarshal into Go value of type int"

/-- Modelled from the spec: the codec on strings, "a quoted string": the text between
double quotes, decoded by `unquote`.  Escape sequences are not described by the spec and
are not modelled. -/
instance : JSONScalar String where
  Marshal s := .ok ('"' :: (s.toList ++ ['"']))
  Unmarshal data :=
    match unquote data with
    | some cs => .ok (String.mk cs)
    | none => .error "json: cannot unmarshal into Go value of type string"

/-- `MarshalJSON` implements the json.Marshaler interface. -/
def Enum.MarshalJSON {T : Type} [JSONScalar T] (e : Enum T) : Except Message (List Char) :=
  JSONScalar.Marshal e.val

/-- `UnmarshalJSON` implements the json.Unmarshaler interface.  It has a pointer
receiver: the result is the error returned, or the container after the call. -/
def Enum.UnmarshalJSON {T : Type} [JSONScalar T] (e : Enum T) (data : List Char) :
    Except Message (Enum T) :=
  match JSONScalar.Unmarshal data with
  | .error msg => .error msg
  | .ok v => .ok { e with val := v }

/-- The promoted method `MarshalJSON` of an interface value. -/
def Enummer.MarshalJSON {T : Type} [JSONScalar T] (e : Enummer T) :
    Except Message (List Char) :=
  e.Enum.MarshalJSON

/-- The promoted method `UnmarshalJSON` of an interface value. -/
def Enummer.UnmarshalJSON {T : Type} [JSONScalar T] (e : Enummer T) (data : List Char) :
    Except Message (Enummer T) :=
  match e.Enum.UnmarshalJSON data with
  | .error msg => .error msg
  | .ok c => .ok { e with Enum := c }

/-- The composite carriers `TestCompositeInt` and `TestCompositeString` of
`enum_test.go`: a struct with one family member as its field `test_type`. -/
structure TestComposite (T : Type) where
  /-- The field `TestType`, a family member. -/
  TestType : Enummer T
deriving DecidableEq, Repr

/-- The rest of `data` after the prefix `p`; `none` when `data` does not start with
`p`. -/
def dropPrefix : List Char → List Char → Option (List Char)
  | [], data => some data
  | _ :: _, [] => none
  | p :: ps, c :: cs => if p = c then dropPrefix ps cs else none

/-- The part of `data` before the suffix `s`; `none` when `data` does not end with
`s`. -/
def dropSuffix (s data : List Char) : Option (List Char) :=
  (dropPrefix s.reverse data.reverse).map List.reverse

/-- Modelled from the spec: the external JSON codec on a composite carrier
(`json.Marshal` of a struct, not part of the package): an object with the key
`test_type` whose value is what `MarshalJSON` of the member returns. -/
def marshalComposite {T : Type} [JSONScalar T] (c : TestComposite T) :
    Except Message (List Char) :=
  match c.TestType.MarshalJSON with
  | .error msg => .error msg
  | .ok b => .ok ("\x7b\"test_type\":".toList ++ b ++ "\x7d".toList)

/-- Modelled from the spec: the external JSON codec on a composite carrier
(`json.Unmarshal` into a struct, not part of the package): "deserialization of a
composite family member recursively deserializes embedded containers", so the value of
the key `test_type` is handed to `UnmarshalJSON` of the member. -/
def unmarshalComposite {T : Type} [JSONScalar T] (c : TestComposite T) (data : List Char) :
    Except Message (TestComposite T) :=
  match dropPrefix "\x7b\"test_type\":".toList data with
  | none => .error "json: cannot unmarshal into Go value of type struct"
  | some rest =>
    match dropSuffix "\x7d".toList rest with
    | none => .error "json: cannot unmarshal into Go value of type struct"
    | some raw =>
      match c.TestType.UnmarshalJSON raw with
      | .error msg => .error msg
      | .ok m => .ok { c with TestType := m }

/-! ## The list check in the words of the specification -/

/-- The list check as the specification words it, to be compared with
`checkEnummerListType`: the list is non-empty and every element has the same family as
the first element. -/
def sameFamilyAsFirst {T : Type} (list : List (Enummer T)) : Bool :=
  match list with
  | [] => false
  | first :: _ => list.all (fun e => compareEnummerType first e)

deriving instance DecidableEq for Except

/-! ## Lemmas on `Equal` -/

theorem Equal_of_same_type {T : Type} [DecidableEq T] (a b : Enummer T)
    (h : getEnummerType a = getEnummerType b) :
    Equal a b = .ok (decide (a.GetValue = b.GetValue)) := by
  simp [Equal, compareEnummerType, h, Enummer.EqualValue, Enum.EqualValue,
    Enummer.GetValue, Enum.GetValue]

theorem Equal_of_different_type {T : Type} [DecidableEq T] (a b : Enummer T)
    (h : getEnummerType a ≠ getEnummerType b) :
    Equal a b = .error ("enum: different types '" ++ a.dynType.String ++ "' and '"
      ++ b.dynType.String ++ "'") := by
  simp [Equal, compareEnummerType, h]

/-! ## Lemmas on `checkEnummerListType` -/

theorem except_unit_error_iff (r : Except String Unit) :
    (∃ msg, r = .error msg) ↔ r ≠ .ok () := by
  cases r with
  | error msg => simp
  | ok u => cases u; simp

theorem checkEnummerListTypeInner_ok_iff {T : Type} (i : Nat) (e : Enummer T)
    (l : List (Nat × Enummer T)) :
    checkEnummerListTypeInner i e l = .ok () ↔
      ∀ q ∈ l, i ≠ q.1 → getEnummerType e = getEnummerType q.2 := by
  induction l with
  | nil => simp [checkEnummerListTypeInner]
  | cons q rest ih =>
    obtain ⟨j, other⟩ := q
    by_cases hc : i ≠ j ∧ (!compareEnummerType e other) = true
    · have hne : getEnummerType e ≠ getEnummerType other := by
        simpa [compareEnummerType] using hc.2
      rw [checkEnummerListTypeInner, if_pos hc]
      constructor
      · intro h; cases h
      · intro h
        exact absurd (h (j, other) (List.mem_cons_self _ _) hc.1) hne
    · rw [checkEnummerListTypeInner, if_neg hc, ih]
      simp only [List.mem_cons]
      constructor
      · intro h q hq hij
        rcases hq with rfl | hq
        · by_contra hne
          exact hc ⟨hij, by simpa [compareEnummerType] using hne⟩
        · exact h q hq hij
      · intro h q hq hij
        exact h q (Or.inr hq) hij

theorem checkEnummerListTypeOuter_ok_iff {T : Type} (all l : List (Nat × Enummer T)) :
    checkEnummerListTypeOuter all l = .ok () ↔
      ∀ p ∈ l, ∀ q ∈ all, p.1 ≠ q.1 → getEnummerType p.2 = getEnummerType q.2 := by
  induction l with
  | nil => simp [checkEnummerListTypeOuter]
  | cons p rest ih =>
    obtain ⟨i, e⟩ := p
    cases hin : checkEnummerListTypeInner i e all with
    | error msg =>
      simp only [checkEnummerListTypeOuter, hin, List.mem_cons]
      constructor
      · intro h; cases h
      · intro h
        have : checkEnummerListTypeInner i e all = .ok () :=
          (checkEnummerListTypeInner_ok_iff i e all).mpr (h (i, e) (Or.inl rfl))
        rw [hin] at this; cases this
    | ok u =>
      cases u
      simp only [checkEnummerListTypeOuter, hin, ih, List.mem_cons]
      constructor
      · intro h p hp
        rcases hp with rfl | hp
        · exact (checkEnummerListTypeInner_ok_iff i e all).mp hin
        · exact h p hp
      · intro h p hp
        exact h p (Or.inr hp)

theorem checkEnummerListType_ok_iff {T : Type} (list : List (Enummer T)) :
    checkEnummerListType list = .ok () ↔
      list ≠ [] ∧ ∀ x ∈ list, ∀ y ∈ list, getEnummerType x = getEnummerType y := by
  unfold checkEnummerListType
  by_cases hlen : list.length = 0
  · have hnil : list = [] := List.length_eq_zero.mp hlen
    simp [hnil]
  · have hne : list ≠ [] := fun h => hlen (by simp [h])
    simp only [hlen, if_false, checkEnummerListTypeOuter_ok_iff]
    constructor
    · intro h
      refine ⟨hne, ?_⟩
      intro x hx y hy
      obtain ⟨i, hi, rfl⟩ := List.getElem_of_mem hx
      obtain ⟨j, hj, rfl⟩ := List.getElem_of_mem hy
      by_cases hij : i = j
      · subst hij; rfl
      · have h1 : (i, list[i]) ∈ list.enum :=
          List.mk_mem_enum_iff_getElem?.mpr (List.getElem?_eq_getElem hi)
        have h2 : (j, list[j]) ∈ list.enum :=
          List.mk_mem_enum_iff_getElem?.mpr (List.getElem?_eq_getElem hj)
        exact h _ h1 _ h2 hij
    · rintro ⟨-, h⟩ p hp q hq -
      exact h _ (List.snd_mem_of_mem_enum hp) _ (List.snd_mem_of_mem_enum hq)

theorem checkEnummerListType_error_iff {T : Type} (list : List (Enummer T)) :
    (∃ msg, checkEnummerListType list = .error msg) ↔
      (list = [] ∨ ∃ x ∈ list, ∃ y ∈ list, getEnummerType x ≠ getEnummerType y) := by
  rw [except_unit_error_iff, Ne, checkEnummerListType_ok_iff]
  constructor
  · intro h
    by_cases hnil : list = []
    · exact Or.inl hnil
    · right
      by_contra hcon
      apply h
      refine ⟨hnil, ?_⟩
      intro x hx y hy
      by_contra hne
      exact hcon ⟨x, hx, y, hy, hne⟩
  · rintro (hnil | ⟨x, hx, y, hy, hne⟩) ⟨hne2, hall⟩
    · exact hne2 hnil
    · exact hne (hall x hx y hy)

/-! ## Lemmas on the index search -/

theorem existInEnummerList_of_same_type {T : Type} [DecidableEq T]
    (list : List (Enummer T)) (e : Enummer T)
    (h : ∀ x ∈ list, getEnummerType x = getEnummerType e) :
    existInEnummerList list e = .ok (list.any (fun x => decide (e.GetValue = x.GetValue))) := by
  induction list with
  | nil => simp [existInEnummerList]
  | cons x rest ih =>
    have hx := h x (List.mem_cons_self _ _)
    have hrest := ih (fun y hy => h y (List.mem_cons_of_mem _ hy))
    rw [existInEnummerList, Equal_of_same_type x e hx]
    by_cases hv : x.GetValue = e.GetValue
    · simp [hv]
    · have hv2 : ¬ e.GetValue = x.GetValue := fun h2 => hv h2.symm
      simp [hv, hv2, hrest]

theorem existInEnummerList_of_different_type {T : Type} [DecidableEq T]
    (list : List (Enummer T)) (e : Enummer T) (hne : list ≠ [])
    (h : ∀ x ∈ list, getEnummerType x ≠ getEnummerType e) :
    ∃ msg, existInEnummerList list e = .error msg := by
  cases list with
  | nil => exact absurd rfl hne
  | cons x rest =>
    rw [existInEnummerList, Equal_of_different_type x e (h x (List.mem_cons_self _ _))]
    exact ⟨_, rfl⟩

theorem IndexFuncFrom_Equal {T : Type} [DecidableEq T]
    (list : List (Enummer T)) (e : Enummer T) (start : Nat)
    (h : ∀ x ∈ list, getEnummerType x = getEnummerType e)
    (hex : ∃ x ∈ list, x.GetValue = e.GetValue) :
    IndexFuncFrom (fun elem => Equal e elem) list start =
      .ok ((start + list.findIdx (fun x => decide (e.GetValue = x.GetValue)) : Nat) : Int) := by
  induction list generalizing start with
  | nil => obtain ⟨x, hx, -⟩ := hex; cases hx
  | cons x rest ih =>
    have hx := h x (List.mem_cons_self _ _)
    rw [IndexFuncFrom, Equal_of_same_type e x hx.symm, List.findIdx_cons]
    by_cases hv : e.GetValue = x.GetValue
    · simp [hv]
    · have hex2 : ∃ y ∈ rest, y.GetValue = e.GetValue := by
        obtain ⟨y, hy, hyv⟩ := hex
        rcases List.mem_cons.mp hy with rfl | hy
        · exact absurd hyv.symm hv
        · exact ⟨y, hy, hyv⟩
      simp only [hv, decide_False, cond_false]
      rw [ih (start + 1) (fun y hy => h y (List.mem_cons_of_mem _ hy)) hex2]
      congr 2
      omega

/-- The position the comparators give to an operand: the first position of the list
whose element holds the operand's value (the length of the list when there is none). -/
theorem compareGetIndex_of_found {T : Type} [DecidableEq T] [Scalar T]
    (list : List (Enummer T)) (e : Enummer T)
    (h : ∀ x ∈ list, getEnummerType x = getEnummerType e)
    (hex : ∃ x ∈ list, x.GetValue = e.GetValue) :
    compareGetIndex list e =
      .ok ((list.findIdx (fun x => decide (e.GetValue = x.GetValue)) : Nat) : Int) := by
  have hany : list.any (fun x => decide (e.GetValue = x.GetValue)) = true := by
    obtain ⟨x, hx, hxv⟩ := hex
    exact List.any_eq_true.mpr ⟨x, hx, by simp [hxv]⟩
  rw [compareGetIndex, existInEnummerList_of_same_type list e h, hany]
  simp only [IndexFunc]
  rw [IndexFuncFrom_Equal list e 0 h hex]
  simp

theorem compareGetIndex_of_absent {T : Type} [DecidableEq T] [Scalar T]
    (list : List (Enummer T)) (e : Enummer T)
    (h : ∀ x ∈ list, getEnummerType x = getEnummerType e)
    (hex : ∀ x ∈ list, x.GetValue ≠ e.GetValue) :
    compareGetIndex list e = .error ("enum: '" ++ e.String ++ "' not found in list") := by
  have hany : list.any (fun x => decide (e.GetValue = x.GetValue)) = false := by
    rw [List.any_eq_false]
    intro x hx
    have hxv : ¬ e.GetValue = x.GetValue := fun h2 => hex x hx h2.symm
    simp [hxv]
  rw [compareGetIndex, existInEnummerList_of_same_type list e h, hany]

theorem compareGetIndex_of_different_type {T : Type} [DecidableEq T] [Scalar T]
    (list : List (Enummer T)) (e : Enummer T) (hne : list ≠ [])
    (h : ∀ x ∈ list, getEnummerType x ≠ getEnummerType e) :
    ∃ msg, compareGetIndex list e = .error msg := by
  obtain ⟨msg, hmsg⟩ := existInEnummerList_of_different_type list e hne h
  exact ⟨msg, by rw [compareGetIndex, hmsg]⟩

/-- An operand is rejected by `compareGetIndex` on a non-empty single-family list exactly
when its family is not the list's or no element holds its value. -/
theorem compareGetIndex_error_iff {T : Type} [DecidableEq T] [Scalar T]
    (list : List (Enummer T)) (e : Enummer T) (hne : list ≠ [])
    (hfam : ∀ x ∈ list, ∀ y ∈ list, getEnummerType x = getEnummerType y) :
    (∃ msg, compareGetIndex list e = .error msg) ↔
      ((∃ x ∈ list, getEnummerType e ≠ getEnummerType x) ∨
        (∀ x ∈ list, x.GetValue ≠ e.GetValue)) := by
  by_cases hty : ∀ x ∈ list, getEnummerType x = getEnummerType e
  · by_cases hex : ∃ x ∈ list, x.GetValue = e.GetValue
    · rw [compareGetIndex_of_found list e hty hex]
      constructor
      · rintro ⟨msg, hmsg⟩; cases hmsg
      · rintro (⟨x, hx, hxe⟩ | hno)
        · exact absurd (hty x hx).symm hxe
        · obtain ⟨x, hx, hxv⟩ := hex
          exact absurd hxv (hno x hx)
    · have hno : ∀ x ∈ list, x.GetValue ≠ e.GetValue :=
        fun x hx hxv => hex ⟨x, hx, hxv⟩
      rw [compareGetIndex_of_absent list e hty hno]
      exact ⟨fun _ => Or.inr hno, fun _ => ⟨_, rfl⟩⟩
  · have hdiff : ∃ x ∈ list, getEnummerType e ≠ getEnummerType x := by
      by_contra hcon
      apply hty
      intro x hx
      by_contra hxe
      exact hcon ⟨x, hx, fun h2 => hxe h2.symm⟩
    obtain ⟨x, hx, hxe⟩ := hdiff
    have hall : ∀ y ∈ list, getEnummerType y ≠ getEnummerType e :=
      fun y hy hye => hxe (by rw [← hye, hfam x hx y hy])
    exact ⟨fun _ => Or.inl ⟨x, hx, hxe⟩,
      fun _ => compareGetIndex_of_different_type list e hne hall⟩

/-! ## Lemmas on the parse loop -/

theorem parseLoop_eq_find {T : Type} [DecidableEq T] (list : List (Enummer T)) (val : T) :
    parseLoop list val = list.find? (fun e => decide (e.GetValue = val)) := by
  induction list with
  | nil => rfl
  | cons e rest ih =>
    by_cases hv : e.GetValue = val
    · simp [parseLoop, List.find?_cons, Enummer.EqualValue, Enum.EqualValue,
        Enummer.GetValue, Enum.GetValue] at *
      simp [hv]
    · simp only [parseLoop, List.find?_cons, ih]
      simp [Enummer.EqualValue, Enum.EqualValue, Enummer.GetValue, Enum.GetValue] at *
      simp [hv]

theorem parseLoop_none_iff {T : Type} [DecidableEq T] (list : List (Enummer T)) (val : T) :
    parseLoop list val = none ↔ ∀ x ∈ list, x.GetValue ≠ val := by
  rw [parseLoop_eq_find]
  simp

theorem parseLoop_first {T : Type} [DecidableEq T] (list : List (Enummer T)) (val : T)
    (i : Nat) (hi : i < list.length) (hv : list[i].GetValue = val)
    (hfirst : ∀ x ∈ list.take i, x.GetValue ≠ val) :
    parseLoop list val = some list[i] := by
  induction list generalizing i with
  | nil => simp at hi
  | cons e rest ih =>
    cases i with
    | zero =>
      have : e.EqualValue val = true := by
        simpa [Enummer.EqualValue, Enum.EqualValue, Enummer.GetValue, Enum.GetValue] using hv
      simp [parseLoop, this]
    | succ k =>
      have he : e.GetValue ≠ val := hfirst e (by simp)
      have : e.EqualValue val = false := by
        simpa [Enummer.EqualValue, Enum.EqualValue, Enummer.GetValue, Enum.GetValue] using he
      simp only [parseLoop, this, List.getElem_cons_succ]
      exact ih k (by simpa using hi) (by simpa using hv)
        (fun x hx => hfirst x (by simp [List.take_succ_cons, hx]))

/-! ## Lemmas on the comparators -/

theorem findIdx_of_first {α : Type} (p : α → Bool) (l : List α) (i : Nat)
    (hi : i < l.length) (hp : p l[i] = true) (hfirst : ∀ x ∈ l.take i, p x = false) :
    l.findIdx p = i := by
  rw [List.findIdx_eq hi]
  refine ⟨hp, fun j hji => hfirst _ ?_⟩
  rw [List.mem_take_iff_getElem]
  exact ⟨j, by simp only [lt_min_iff]; omega, rfl⟩

theorem findIdx_value_eq_iff {T : Type} [DecidableEq T] (list : List (Enummer T))
    (a b : Enummer T)
    (hav : ∃ x ∈ list, x.GetValue = a.GetValue) :
    list.findIdx (fun x => decide (a.GetValue = x.GetValue)) =
      list.findIdx (fun x => decide (b.GetValue = x.GetValue)) ↔
      a.GetValue = b.GetValue := by
  constructor
  · intro heq
    have hlta : list.findIdx (fun x => decide (a.GetValue = x.GetValue)) < list.length := by
      rw [List.findIdx_lt_length]
      obtain ⟨x, hx, hxv⟩ := hav
      exact ⟨x, hx, by simp [hxv]⟩
    obtain ⟨y, hy⟩ : ∃ y, list[list.findIdx
        (fun x => decide (a.GetValue = x.GetValue))]? = some y :=
      ⟨_, List.getElem?_eq_getElem hlta⟩
    have h1 := List.findIdx_of_getElem?_eq_some hy
    rw [heq] at hy
    have h2 := List.findIdx_of_getElem?_eq_some hy
    simp only [decide_eq_true_eq] at h1 h2
    rw [h1, h2]
  · intro heq
    rw [heq]

theorem compareWith_of_found {T : Type} [DecidableEq T] [Scalar T]
    (op : Int → Int → Bool) (list : List (Enummer T)) (a b : Enummer T)
    (ha : ∀ x ∈ list, getEnummerType x = getEnummerType a)
    (hav : ∃ x ∈ list, x.GetValue = a.GetValue)
    (hb : ∀ x ∈ list, getEnummerType x = getEnummerType b)
    (hbv : ∃ x ∈ list, x.GetValue = b.GetValue) :
    compareWith op list a b =
      .ok (op ((list.findIdx (fun x => decide (a.GetValue = x.GetValue)) : Nat) : Int)
        ((list.findIdx (fun x => decide (b.GetValue = x.GetValue)) : Nat) : Int)) := by
  rw [compareWith, compareGetIndex_of_found list a ha hav,
    compareGetIndex_of_found list b hb hbv]

theorem compareWith_error_iff {T : Type} [DecidableEq T] [Scalar T]
    (op : Int → Int → Bool) (list : List (Enummer T)) (a b : Enummer T) :
    (∃ msg, compareWith op list a b = .error msg) ↔
      ((∃ msg, compareGetIndex list a = .error msg) ∨
        (∃ msg, compareGetIndex list b = .error msg)) := by
  unfold compareWith
  cases compareGetIndex list a with
  | error m => simp
  | ok ai =>
    cases compareGetIndex list b with
    | error m => simp
    | ok bi => simp

theorem except_ok_iff_not_error {α : Type} (r : Except String α) :
    (∃ v, r = .ok v) ↔ ¬ ∃ msg, r = .error msg := by
  cases r with
  | error m => simp
  | ok v => simp

theorem comparators_ok {T : Type} [DecidableEq T] [Scalar T] (list : List (Enummer T))
    (hne : list ≠ [])
    (hfam : ∀ x ∈ list, ∀ y ∈ list, getEnummerType x = getEnummerType y) :
    GreaterThan list =
        .ok (fun a b => compareWith (fun ai bi => decide (ai > bi)) list a b) ∧
      GreaterThanOrEqual list =
        .ok (fun a b => compareWith (fun ai bi => decide (ai ≥ bi)) list a b) ∧
      LessThan list =
        .ok (fun a b => compareWith (fun ai bi => decide (ai < bi)) list a b) ∧
      LessThanOrEqual list =
        .ok (fun a b => compareWith (fun ai bi => decide (ai ≤ bi)) list a b) := by
  have hck : checkEnummerListType list = .ok () :=
    (checkEnummerListType_ok_iff list).mpr ⟨hne, hfam⟩
  simp [GreaterThan, GreaterThanOrEqual, LessThan, LessThanOrEqual, hck]

theorem parsers_ok {T : Type} [DecidableEq T] [Scalar T] (list : List (Enummer T))
    (hne : list ≠ [])
    (hfam : ∀ x ∈ list, ∀ y ∈ list, getEnummerType x = getEnummerType y) :
    Parse list = .ok (fun val => parseLoop list val) ∧
      MustParse list = .ok (fun val =>
        match parseLoop list val with
        | some e => .ok e
        | none => .error ("enum: '" ++ Scalar.Sprintv val ++ "' not found")) := by
  have hck : checkEnummerListType list = .ok () :=
    (checkEnummerListType_ok_iff list).mpr ⟨hne, hfam⟩
  simp [Parse, MustParse, hck]

theorem Parse_error_iff {T : Type} [DecidableEq T] (list : List (Enummer T)) :
    (∃ msg, Parse list = .error msg) ↔ ∃ msg, checkEnummerListType list = .error msg := by
  unfold Parse
  cases checkEnummerListType list with
  | error m => simp
  | ok u => simp

theorem MustParse_error_iff {T : Type} [DecidableEq T] [Scalar T] (list : List (Enummer T)) :
    (∃ msg, MustParse list = .error msg) ↔
      ∃ msg, checkEnummerListType list = .error msg := by
  unfold MustParse
  cases checkEnummerListType list with
  | error m => simp
  | ok u => simp

theorem comparators_error_iff {T : Type} [DecidableEq T] [Scalar T]
    (list : List (Enummer T))
    (cmp : Except String (Enummer T → Enummer T → Except String Bool))
    (hcmp : cmp ∈ [GreaterThan list, GreaterThanOrEqual list, LessThan list,
      LessThanOrEqual list]) :
    (∃ msg, cmp = .error msg) ↔ ∃ msg, checkEnummerListType list = .error msg := by
  simp only [List.mem_cons, List.mem_singleton, List.not_mem_nil, or_false] at hcmp
  rcases hcmp with rfl | rfl | rfl | rfl
  · unfold GreaterThan
    cases checkEnummerListType list with
    | error m => simp
    | ok u => simp
  · unfold GreaterThanOrEqual
    cases checkEnummerListType list with
    | error m => simp
    | ok u => simp
  · unfold LessThan
    cases checkEnummerListType list with
    | error m => simp
    | ok u => simp
  · unfold LessThanOrEqual
    cases checkEnummerListType list with
    | error m => simp
    | ok u => simp

/-! ## Equality of instances -/

/-- C1: for two instances `a` and `b` of the same family, `Equal(a, b)` does not panic;
it returns `a.EqualValue(b.GetValue())`, which is true exactly when `a` and `b` hold
the same value. -/
theorem Equal_same_family {T : Type} [DecidableEq T] (a b : Enummer T)
    (h : getEnummerType a = getEnummerType b) :
    Equal a b = .ok (a.EqualValue b.GetValue) ∧
      (Equal a b = .ok true ↔ a.GetValue = b.GetValue) ∧
      (Equal a b = .ok false ↔ a.GetValue ≠ b.GetValue) := by
  have hE := Equal_of_same_type a b h
  refine ⟨?_, ?_, ?_⟩
  · simp [Equal, compareEnummerType, h]
  · rw [hE]; simp
  · rw [hE]; simp

theorem Equal_same_family_witness :
    Equal (TestTypeInt 0 1) (TestTypeInt 1 1) =
        .ok ((TestTypeInt 0 1).EqualValue (TestTypeInt 1 1).GetValue) ∧
      (Equal (TestTypeInt 0 1) (TestTypeInt 1 1) = .ok true ↔
        (TestTypeInt 0 1).GetValue = (TestTypeInt 1 1).GetValue) ∧
      (Equal (TestTypeInt 0 1) (TestTypeInt 1 1) = .ok false ↔
        (TestTypeInt 0 1).GetValue ≠ (TestTypeInt 1 1).GetValue) :=
  Equal_same_family (TestTypeInt 0 1) (TestTypeInt 1 1) (by decide)

/-- C2: `Equal(a, b)` panics exactly when the families of `a` and `b` differ, and then
it returns neither true nor false; in particular it panics on
`&TestTypeInt{Enum[int]{1}}` and `&Test2TypeInt{Enum[int]{1}}`, which hold the same
value. -/
theorem Equal_panics_iff_families_differ {T : Type} [DecidableEq T] (a b : Enummer T) :
    ((∃ msg, Equal a b = .error msg) ↔ getEnummerType a ≠ getEnummerType b) ∧
      ((∃ r, Equal a b = .ok r) ↔ getEnummerType a = getEnummerType b) ∧
      (∃ msg, Equal (TestTypeInt 0 1) (Test2TypeInt 1 1) = .error msg) := by
  refine ⟨?_, ?_, ⟨_, Equal_of_different_type _ _ (by decide)⟩⟩
  · by_cases h : getEnummerType a = getEnummerType b
    · rw [Equal_of_same_type a b h]; simp [h]
    · rw [Equal_of_different_type a b h]; simp [h]
  · by_cases h : getEnummerType a = getEnummerType b
    · rw [Equal_of_same_type a b h]; simp [h]
    · rw [Equal_of_different_type a b h]; simp [h]

/-- C3: for every instance `x`, `Equal(x, x)` returns true. -/
theorem Equal_self {T : Type} [DecidableEq T] (x : Enummer T) : Equal x x = .ok true := by
  rw [Equal_of_same_type x x rfl]; simp

/-! ## Ordering by position -/

/-- C4 (as stated, refuted): in the single-family list `TestTypeIntTwice`, whose two
elements hold the same value, `GreaterThan` of the element at position 1 and the element
at position 0 is false although `1 > 0`. -/
theorem GreaterThan_position_counterexample :
    TestTypeIntTwice ≠ [] ∧
      (∀ x ∈ TestTypeIntTwice, ∀ y ∈ TestTypeIntTwice,
        getEnummerType x = getEnummerType y) ∧
      TestTypeIntTwice[1]? = some (TestTypeInt 1 1) ∧
      TestTypeIntTwice[0]? = some (TestTypeInt 0 1) ∧
      (∃ f, GreaterThan TestTypeIntTwice = .ok f ∧
        f (TestTypeInt 1 1) (TestTypeInt 0 1) = .ok false) ∧
      decide (1 > 0) = true := by
  refine ⟨by decide, by decide, by decide, by decide, ⟨_, rfl, by decide⟩, by decide⟩

/-- C4 (amended): for a non-empty single-family list `L` and positions `i`, `j` of `L`
such that no earlier element holds the value of `L[i]`, respectively of `L[j]`,
`GreaterThan(L)(L[i], L[j])` is `i > j`, and `GreaterThanOrEqual`, `LessThan`,
`LessThanOrEqual` are `i >= j`, `i < j`, `i <= j`. -/
theorem comparators_at_first_positions {T : Type} [DecidableEq T] [Scalar T]
    (L : List (Enummer T)) (hne : L ≠ [])
    (hfam : ∀ x ∈ L, ∀ y ∈ L, getEnummerType x = getEnummerType y)
    (i j : Nat) (hi : i < L.length) (hj : j < L.length)
    (hfi : ∀ x ∈ L.take i, x.GetValue ≠ L[i].GetValue)
    (hfj : ∀ x ∈ L.take j, x.GetValue ≠ L[j].GetValue) :
    (∃ f, GreaterThan L = .ok f ∧ f L[i] L[j] = .ok (decide (i > j))) ∧
      (∃ f, GreaterThanOrEqual L = .ok f ∧ f L[i] L[j] = .ok (decide (i ≥ j))) ∧
      (∃ f, LessThan L = .ok f ∧ f L[i] L[j] = .ok (decide (i < j))) ∧
      (∃ f, LessThanOrEqual L = .ok f ∧ f L[i] L[j] = .ok (decide (i ≤ j))) := by
  obtain ⟨h1, h2, h3, h4⟩ := comparators_ok L hne hfam
  have hmi : L[i] ∈ L := List.getElem_mem hi
  have hmj : L[j] ∈ L := List.getElem_mem hj
  have hii : L.findIdx (fun x => decide (L[i].GetValue = x.GetValue)) = i :=
    findIdx_of_first _ L i hi (by simp)
      (fun x hx => by
        have hxv : ¬ L[i].GetValue = x.GetValue := fun h2 => hfi x hx h2.symm
        simp [hxv])
  have hjj : L.findIdx (fun x => decide (L[j].GetValue = x.GetValue)) = j :=
    findIdx_of_first _ L j hj (by simp)
      (fun x hx => by
        have hxv : ¬ L[j].GetValue = x.GetValue := fun h2 => hfj x hx h2.symm
        simp [hxv])
  have hcw : ∀ op : Int → Int → Bool,
      compareWith op L L[i] L[j] = .ok (op (i : Int) (j : Int)) := by
    intro op
    rw [compareWith_of_found op L L[i] L[j] (fun x hx => hfam x hx _ hmi) ⟨_, hmi, rfl⟩
      (fun x hx => hfam x hx _ hmj) ⟨_, hmj, rfl⟩, hii, hjj]
  refine ⟨⟨_, h1, ?_⟩, ⟨_, h2, ?_⟩, ⟨_, h3, ?_⟩, ⟨_, h4, ?_⟩⟩
  · simp [hcw]
  · simp [hcw]
  · simp [hcw]
  · simp [hcw]

theorem comparators_at_first_positions_witness :
    (∃ f, GreaterThan TestStateCompares = .ok f ∧
        f TestStateCompareFailed TestStateComparePassed = .ok (decide (3 > 1))) ∧
      (∃ f, GreaterThanOrEqual TestStateCompares = .ok f ∧
        f TestStateCompareFailed TestStateComparePassed = .ok (decide (3 ≥ 1))) ∧
      (∃ f, LessThan TestStateCompares = .ok f ∧
        f TestStateCompareFailed TestStateComparePassed = .ok (decide (3 < 1))) ∧
      (∃ f, LessThanOrEqual TestStateCompares = .ok f ∧
        f TestStateCompareFailed TestStateComparePassed = .ok (decide (3 ≤ 1))) :=
  comparators_at_first_positions TestStateCompares (by decide) (by decide) 3 1
    (by decide) (by decide) (by decide) (by decide)

/-- C5: for a non-empty single-family list `L` and operands `a`, `b` of the family of
`L` whose values occur in `L`, the three calls `GreaterThan(L)(a, b)`,
`LessThan(L)(a, b)` and `Equal(a, b)` all return, and exactly one of them returns true;
no assumption is made on duplicates in `L`. -/
theorem trichotomy {T : Type} [DecidableEq T] [Scalar T]
    (L : List (Enummer T)) (hne : L ≠ [])
    (hfam : ∀ x ∈ L, ∀ y ∈ L, getEnummerType x = getEnummerType y)
    (a b : Enummer T)
    (ha : ∀ x ∈ L, getEnummerType a = getEnummerType x)
    (hav : ∃ x ∈ L, x.GetValue = a.GetValue)
    (hb : ∀ x ∈ L, getEnummerType b = getEnummerType x)
    (hbv : ∃ x ∈ L, x.GetValue = b.GetValue) :
    ∃ gt lt, GreaterThan L = .ok gt ∧ LessThan L = .ok lt ∧
      ∃ g l e, gt a b = .ok g ∧ lt a b = .ok l ∧ Equal a b = .ok e ∧
        ((g = true ∧ l = false ∧ e = false) ∨ (g = false ∧ l = true ∧ e = false) ∨
          (g = false ∧ l = false ∧ e = true)) := by
  obtain ⟨h1, -, h3, -⟩ := comparators_ok L hne hfam
  have hab : getEnummerType a = getEnummerType b := by
    obtain ⟨x, hx, -⟩ := hav
    rw [ha x hx, hb x hx]
  have hcw := fun op => compareWith_of_found op L a b (fun x hx => (ha x hx).symm) hav
    (fun x hx => (hb x hx).symm) hbv
  have hiff := findIdx_value_eq_iff L a b hav
  refine ⟨_, _, h1, h3, _, _, _, hcw _, hcw _, Equal_of_same_type a b hab, ?_⟩
  rcases Nat.lt_trichotomy (L.findIdx (fun x => decide (a.GetValue = x.GetValue)))
    (L.findIdx (fun x => decide (b.GetValue = x.GetValue))) with hlt | heq | hgt
  · have hv : a.GetValue ≠ b.GetValue := fun h => by
      have := hiff.mpr h; omega
    right; left
    refine ⟨?_, ?_, ?_⟩
    · simp only [decide_eq_false_iff_not]; omega
    · simp only [decide_eq_true_eq]; omega
    · simp [hv]
  · have hv : a.GetValue = b.GetValue := hiff.mp heq
    right; right
    refine ⟨?_, ?_, ?_⟩
    · simp only [decide_eq_false_iff_not]; omega
    · simp only [decide_eq_false_iff_not]; omega
    · simp [hv]
  · have hv : a.GetValue ≠ b.GetValue := fun h => by
      have := hiff.mpr h; omega
    left
    refine ⟨?_, ?_, ?_⟩
    · simp only [decide_eq_true_eq]; omega
    · simp only [decide_eq_false_iff_not]; omega
    · simp [hv]

theorem trichotomy_witness :
    ∃ gt lt, GreaterThan TestTypeIntTwice = .ok gt ∧ LessThan TestTypeIntTwice = .ok lt ∧
      ∃ g l e, gt (TestTypeInt 1 1) (TestTypeInt 0 1) = .ok g ∧
        lt (TestTypeInt 1 1) (TestTypeInt 0 1) = .ok l ∧
        Equal (TestTypeInt 1 1) (TestTypeInt 0 1) = .ok e ∧
        ((g = true ∧ l = false ∧ e = false) ∨ (g = false ∧ l = true ∧ e = false) ∨
          (g = false ∧ l = false ∧ e = true)) :=
  trichotomy TestTypeIntTwice (by decide) (by decide) (TestTypeInt 1 1) (TestTypeInt 0 1)
    (by decide) (by decide) (by decide) (by decide)

/-! ## Panics -/

/-- C6: when the list is empty or holds two elements of different families, each of
`Parse`, `MustParse`, `GreaterThan`, `GreaterThanOrEqual`, `LessThan` and
`LessThanOrEqual` panics as soon as it is given the list; on every other list each of
them returns a function. -/
theorem list_functions_panic_iff {T : Type} [DecidableEq T] [Scalar T]
    (L : List (Enummer T)) :
    ((L = [] ∨ ∃ x ∈ L, ∃ y ∈ L, getEnummerType x ≠ getEnummerType y) →
        (∃ msg, Parse L = .error msg) ∧ (∃ msg, MustParse L = .error msg) ∧
        (∃ msg, GreaterThan L = .error msg) ∧ (∃ msg, GreaterThanOrEqual L = .error msg) ∧
        (∃ msg, LessThan L = .error msg) ∧ (∃ msg, LessThanOrEqual L = .error msg)) ∧
      (¬ (L = [] ∨ ∃ x ∈ L, ∃ y ∈ L, getEnummerType x ≠ getEnummerType y) →
        (∃ f, Parse L = .ok f) ∧ (∃ f, MustParse L = .ok f) ∧
        (∃ f, GreaterThan L = .ok f) ∧ (∃ f, GreaterThanOrEqual L = .ok f) ∧
        (∃ f, LessThan L = .ok f) ∧ (∃ f, LessThanOrEqual L = .ok f)) := by
  have hck := checkEnummerListType_error_iff L
  have hp := (Parse_error_iff L).trans hck
  have hm := (MustParse_error_iff L).trans hck
  have hc := fun cmp hcmp => (comparators_error_iff L cmp hcmp).trans hck
  have hg := hc (GreaterThan L) (by simp)
  have hge := hc (GreaterThanOrEqual L) (by simp)
  have hl := hc (LessThan L) (by simp)
  have hle := hc (LessThanOrEqual L) (by simp)
  constructor
  · intro hbad
    exact ⟨hp.mpr hbad, hm.mpr hbad, hg.mpr hbad, hge.mpr hbad, hl.mpr hbad, hle.mpr hbad⟩
  · intro hgood
    refine ⟨?_, ?_, ?_, ?_, ?_, ?_⟩
    · exact (except_ok_iff_not_error _).mpr (fun h => hgood (hp.mp h))
    · exact (except_ok_iff_not_error _).mpr (fun h => hgood (hm.mp h))
    · exact (except_ok_iff_not_error _).mpr (fun h => hgood (hg.mp h))
    · exact (except_ok_iff_not_error _).mpr (fun h => hgood (hge.mp h))
    · exact (except_ok_iff_not_error _).mpr (fun h => hgood (hl.mp h))
    · exact (except_ok_iff_not_error _).mpr (fun h => hgood (hle.mp h))

/-- C7: for a non-empty single-family list `L`, each of the four comparators built from
`L` panics on `(a, b)` exactly when `a` or `b` has a family other than the family of `L`
or holds a value that no element of `L` holds; otherwise it returns a boolean. -/
theorem comparator_panics_iff {T : Type} [DecidableEq T] [Scalar T]
    (L : List (Enummer T)) (hne : L ≠ [])
    (hfam : ∀ x ∈ L, ∀ y ∈ L, getEnummerType x = getEnummerType y)
    (a b : Enummer T) :
    ∀ cmp ∈ [GreaterThan L, GreaterThanOrEqual L, LessThan L, LessThanOrEqual L],
      ∃ f, cmp = .ok f ∧
        ((∃ msg, f a b = .error msg) ↔
          (((∃ x ∈ L, getEnummerType a ≠ getEnummerType x) ∨
              (∀ x ∈ L, x.GetValue ≠ a.GetValue)) ∨
            ((∃ x ∈ L, getEnummerType b ≠ getEnummerType x) ∨
              (∀ x ∈ L, x.GetValue ≠ b.GetValue)))) ∧
        ((∃ r, f a b = .ok r) ↔
          ¬ (((∃ x ∈ L, getEnummerType a ≠ getEnummerType x) ∨
              (∀ x ∈ L, x.GetValue ≠ a.GetValue)) ∨
            ((∃ x ∈ L, getEnummerType b ≠ getEnummerType x) ∨
              (∀ x ∈ L, x.GetValue ≠ b.GetValue)))) := by
  obtain ⟨h1, h2, h3, h4⟩ := comparators_ok L hne hfam
  have key : ∀ op : Int → Int → Bool,
      ((∃ msg, compareWith op L a b = .error msg) ↔
        (((∃ x ∈ L, getEnummerType a ≠ getEnummerType x) ∨
            (∀ x ∈ L, x.GetValue ≠ a.GetValue)) ∨
          ((∃ x ∈ L, getEnummerType b ≠ getEnummerType x) ∨
            (∀ x ∈ L, x.GetValue ≠ b.GetValue)))) := by
    intro op
    rw [compareWith_error_iff, compareGetIndex_error_iff L a hne hfam,
      compareGetIndex_error_iff L b hne hfam]
  intro cmp hcmp
  simp only [List.mem_cons, List.mem_singleton, List.not_mem_nil, or_false] at hcmp
  rcases hcmp with rfl | rfl | rfl | rfl
  · exact ⟨_, h1, key _, by rw [except_ok_iff_not_error, key]⟩
  · exact ⟨_, h2, key _, by rw [except_ok_iff_not_error, key]⟩
  · exact ⟨_, h3, key _, by rw [except_ok_iff_not_error, key]⟩
  · exact ⟨_, h4, key _, by rw [except_ok_iff_not_error, key]⟩

theorem comparator_panics_iff_witness :
    ∃ f, GreaterThan TestTypeIntTwice = .ok f ∧
      ((∃ msg, f (TestTypeInt 2 1) (Test2TypeInt 3 1) = .error msg) ↔
        (((∃ x ∈ TestTypeIntTwice,
              getEnummerType (TestTypeInt 2 1) ≠ getEnummerType x) ∨
            (∀ x ∈ TestTypeIntTwice, x.GetValue ≠ (TestTypeInt 2 1).GetValue)) ∨
          ((∃ x ∈ TestTypeIntTwice,
              getEnummerType (Test2TypeInt 3 1) ≠ getEnummerType x) ∨
            (∀ x ∈ TestTypeIntTwice, x.GetValue ≠ (Test2TypeInt 3 1).GetValue)))) ∧
      ((∃ r, f (TestTypeInt 2 1) (Test2TypeInt 3 1) = .ok r) ↔
        ¬ (((∃ x ∈ TestTypeIntTwice,
              getEnummerType (TestTypeInt 2 1) ≠ getEnummerType x) ∨
            (∀ x ∈ TestTypeIntTwice, x.GetValue ≠ (TestTypeInt 2 1).GetValue)) ∨
          ((∃ x ∈ TestTypeIntTwice,
              getEnummerType (Test2TypeInt 3 1) ≠ getEnummerType x) ∨
            (∀ x ∈ TestTypeIntTwice, x.GetValue ≠ (Test2TypeInt 3 1).GetValue)))) :=
  comparator_panics_iff TestTypeIntTwice (by decide) (by decide) (TestTypeInt 2 1)
    (Test2TypeInt 3 1) (GreaterThan TestTypeIntTwice) (List.mem_cons_self _ _)

/-! ## Parsing functions -/

/-- C8: for a non-empty single-family list `L`, `Parse(L)` returns a function that, for
every raw value `v`, returns the element at the lowest position of `L` holding `v` when
there is one, and nil when no element of `L` holds `v`. -/
theorem Parse_first_match {T : Type} [DecidableEq T]
    (L : List (Enummer T)) (hne : L ≠ [])
    (hfam : ∀ x ∈ L, ∀ y ∈ L, getEnummerType x = getEnummerType y) :
    ∃ f, Parse L = .ok f ∧ ∀ v : T,
      (∀ (i : Nat) (hi : i < L.length), L[i].GetValue = v →
        (∀ x ∈ L.take i, x.GetValue ≠ v) → f v = some L[i]) ∧
      ((∃ x ∈ L, x.GetValue = v) → ∃ (i : Nat) (hi : i < L.length),
        L[i].GetValue = v ∧ (∀ x ∈ L.take i, x.GetValue ≠ v) ∧ f v = some L[i]) ∧
      ((∀ x ∈ L, x.GetValue ≠ v) → f v = none) := by
  have hck : checkEnummerListType L = .ok () :=
    (checkEnummerListType_ok_iff L).mpr ⟨hne, hfam⟩
  refine ⟨fun val => parseLoop L val, by simp [Parse, hck], ?_⟩
  intro v
  refine ⟨fun i hi hv hfirst => parseLoop_first L v i hi hv hfirst, ?_,
    fun hno => (parseLoop_none_iff L v).mpr hno⟩
  intro hex
  have hlt : L.findIdx (fun x => decide (x.GetValue = v)) < L.length := by
    rw [List.findIdx_lt_length]
    obtain ⟨x, hx, hxv⟩ := hex
    exact ⟨x, hx, by simp [hxv]⟩
  have hv : L[L.findIdx (fun x => decide (x.GetValue = v))].GetValue = v := by
    have := @List.findIdx_getElem _ (fun x => decide (x.GetValue = v)) L hlt
    simpa using this
  have hfirst : ∀ x ∈ L.take (L.findIdx (fun x => decide (x.GetValue = v))),
      x.GetValue ≠ v := by
    intro x hx
    rw [List.mem_take_iff_getElem] at hx
    obtain ⟨k, hk, rfl⟩ := hx
    have hk2 : k < L.findIdx (fun x => decide (x.GetValue = v)) := by
      simp only [lt_min_iff] at hk; exact hk.1
    have := @List.not_of_lt_findIdx _ (fun x => decide (x.GetValue = v)) L k hk2
    simpa using this
  exact ⟨_, hlt, hv, hfirst, parseLoop_first L v _ hlt hv hfirst⟩

theorem Parse_first_match_witness :
    ∃ f, Parse TestTypeIntTwice = .ok f ∧ ∀ v : Int,
      (∀ (i : Nat) (hi : i < TestTypeIntTwice.length), TestTypeIntTwice[i].GetValue = v →
        (∀ x ∈ TestTypeIntTwice.take i, x.GetValue ≠ v) →
        f v = some TestTypeIntTwice[i]) ∧
      ((∃ x ∈ TestTypeIntTwice, x.GetValue = v) →
        ∃ (i : Nat) (hi : i < TestTypeIntTwice.length),
          TestTypeIntTwice[i].GetValue = v ∧
          (∀ x ∈ TestTypeIntTwice.take i, x.GetValue ≠ v) ∧
          f v = some TestTypeIntTwice[i]) ∧
      ((∀ x ∈ TestTypeIntTwice, x.GetValue ≠ v) → f v = none) :=
  Parse_first_match TestTypeIntTwice (by decide) (by decide)

/-- C9: for a non-empty single-family list `L` and every raw value `v`, `MustParse(L)(v)`
returns the element that `Parse(L)(v)` returns when some element of `L` holds `v`, and
panics exactly when `Parse(L)(v)` is nil, which is when no element of `L` holds `v`. -/
theorem MustParse_agrees_with_Parse {T : Type} [DecidableEq T] [Scalar T]
    (L : List (Enummer T)) (hne : L ≠ [])
    (hfam : ∀ x ∈ L, ∀ y ∈ L, getEnummerType x = getEnummerType y) :
    ∃ p m, Parse L = .ok p ∧ MustParse L = .ok m ∧ ∀ v : T,
      ((∃ x ∈ L, x.GetValue = v) → ∃ e, p v = some e ∧ m v = .ok e) ∧
      ((∃ msg, m v = .error msg) ↔ p v = none) ∧
      ((∃ msg, m v = .error msg) ↔ ∀ x ∈ L, x.GetValue ≠ v) := by
  obtain ⟨hp, hm⟩ := parsers_ok L hne hfam
  refine ⟨_, _, hp, hm, ?_⟩
  intro v
  have hnone := parseLoop_none_iff L v
  cases hpl : parseLoop L v with
  | none =>
    have hno := hnone.mp hpl
    refine ⟨?_, by simp, by simpa using hno⟩
    rintro ⟨x, hx, hxv⟩
    exact absurd hxv (hno x hx)
  | some e =>
    have hex : ¬ ∀ x ∈ L, x.GetValue ≠ v := fun h => by
      have := hnone.mpr h
      rw [hpl] at this; cases this
    refine ⟨fun _ => ⟨e, rfl, rfl⟩, by simp, ?_⟩
    constructor
    · rintro ⟨msg, hmsg⟩; cases hmsg
    · intro h; exact absurd h hex

theorem MustParse_agrees_with_Parse_witness :
    ∃ p m, Parse TestStateCompares = .ok p ∧ MustParse TestStateCompares = .ok m ∧
      ∀ v : String,
        ((∃ x ∈ TestStateCompares, x.GetValue = v) → ∃ e, p v = some e ∧ m v = .ok e) ∧
        ((∃ msg, m v = .error msg) ↔ p v = none) ∧
        ((∃ msg, m v = .error msg) ↔ ∀ x ∈ TestStateCompares, x.GetValue ≠ v) :=
  MustParse_agrees_with_Parse TestStateCompares (by decide) (by decide)

/-! ## The scenario of `example_compare_test.go` -/

/-- C10: the order is given by position in the list, not by the order of the held
values: with `TestStateCompares` (Unknown, Passed, Skipped, Failed),
`GreaterThan(Failed, Passed)` is true although the string failed sorts before passed,
`LessThanOrEqual(Unknown, Passed)` is true, `Parse` of passed is `Passed`, `Parse` of xxx
is nil and `MustParse` of xxx panics. -/
theorem example_compare_scenario :
    "failed" < "passed" ∧
      (∃ f, GreaterThan TestStateCompares = .ok f ∧
        f TestStateCompareFailed TestStateComparePassed = .ok true) ∧
      (∃ f, LessThanOrEqual TestStateCompares = .ok f ∧
        f TestStateCompareUnknown TestStateComparePassed = .ok true) ∧
      (∃ f, Parse TestStateCompares = .ok f ∧
        f "passed" = some TestStateComparePassed ∧ f "xxx" = none) ∧
      (∃ f, MustParse TestStateCompares = .ok f ∧ ∃ msg, f "xxx" = .error msg) := by
  refine ⟨?_, ⟨_, rfl, by decide⟩, ⟨_, rfl, by decide⟩, ⟨_, rfl, by decide, by decide⟩,
    ⟨_, rfl, _, rfl⟩⟩
  rw [String.lt_iff_toList_lt]
  decide

/-! ## Lemmas on the codecs -/

theorem digitValue_digitChar (d : Nat) (h : d < 10) :
    digitValue (Nat.digitChar d) = some d := by
  interval_cases d <;> decide

theorem parseDigits_toDigitsCore (fuel n : Nat) (ds : List Char) (h : n < fuel) :
    parseDigits (Nat.toDigitsCore 10 fuel n ds) 0 = parseDigits ds n := by
  induction fuel generalizing n ds with
  | zero => omega
  | succ fuel ih =>
    have hd : digitValue (Nat.digitChar (n % 10)) = some (n % 10) :=
      digitValue_digitChar (n % 10) (Nat.mod_lt n (by decide))
    unfold Nat.toDigitsCore
    by_cases h0 : n / 10 = 0
    · simp only [h0, if_true]
      rw [parseDigits, hd]
      have : 0 * 10 + n % 10 = n := by omega
      simp only [this]
    · simp only [h0, if_false]
      rw [ih (n / 10) _ (by omega), parseDigits, hd]
      have : n / 10 * 10 + n % 10 = n := by omega
      simp only [this]

theorem parseDigits_toDigits (n : Nat) : parseDigits (Nat.toDigits 10 n) 0 = some n := by
  unfold Nat.toDigits
  rw [parseDigits_toDigitsCore (n + 1) n [] (by omega)]
  rfl

theorem toDigitsCore_ne_nil (fuel n : Nat) (ds : List Char) (h : ds ≠ []) :
    Nat.toDigitsCore 10 fuel n ds ≠ [] := by
  induction fuel generalizing n ds with
  | zero => simpa [Nat.toDigitsCore] using h
  | succ fuel ih =>
    unfold Nat.toDigitsCore
    by_cases h0 : n / 10 = 0
    · simp [h0]
    · simp only [h0, if_false]
      exact ih _ _ (by simp)

theorem toDigits_ne_nil (n : Nat) : Nat.toDigits 10 n ≠ [] := by
  unfold Nat.toDigits Nat.toDigitsCore
  by_cases h0 : n / 10 = 0
  · simp [h0]
  · simp only [h0, if_false]
    exact toDigitsCore_ne_nil _ _ _ (by simp)

theorem toDigits_head_ne_minus (n : Nat) (c : Char) (cs : List Char)
    (h : Nat.toDigits 10 n = c :: cs) : c ≠ '-' := by
  have hp := parseDigits_toDigits n
  rw [h, parseDigits] at hp
  intro hc
  subst hc
  have : digitValue '-' = none := by decide
  rw [this] at hp
  cases hp

theorem toString_int_toList (n : Int) :
    (toString n).toList =
      if n < 0 then '-' :: Nat.toDigits 10 n.natAbs else Nat.toDigits 10 n.natAbs := by
  cases n with
  | ofNat m =>
    have h : ¬ (Int.ofNat m < 0) := by simp
    rw [if_neg h]
    rfl
  | negSucc m =>
    have h : Int.negSucc m < 0 := Int.negSucc_lt_zero m
    rw [if_pos h]
    rfl

theorem parseDecimal_toString (n : Int) : parseDecimal (toString n).toList = some n := by
  rw [toString_int_toList]
  by_cases hn : n < 0
  · rw [if_pos hn]
    have hneg : -((n.natAbs : Nat) : Int) = n := by omega
    rw [parseDecimal, if_pos rfl, if_neg (toDigits_ne_nil _), parseDigits_toDigits]
    simp only [hneg]
  · rw [if_neg hn]
    have hpos : ((n.natAbs : Nat) : Int) = n := by omega
    cases hds : Nat.toDigits 10 n.natAbs with
    | nil => exact absurd hds (toDigits_ne_nil _)
    | cons c cs =>
      have hc := toDigits_head_ne_minus _ c cs hds
      rw [parseDecimal, if_neg hc, ← hds, parseDigits_toDigits]
      simp only [hpos]

theorem unquote_quoted (cs : List Char) : unquote ('"' :: (cs ++ ['"'])) = some cs := by
  simp [unquote, List.getLast?_concat]

theorem dropPrefix_append (p r : List Char) : dropPrefix p (p ++ r) = some r := by
  induction p with
  | nil => cases r <;> rfl
  | cons c cs ih => simp [dropPrefix, ih]

theorem dropSuffix_append (s r : List Char) : dropSuffix s (r ++ s) = some r := by
  simp [dropSuffix, List.reverse_append, dropPrefix_append]

theorem marshal_int (n : Int) :
    (New n).MarshalJSON = .ok (toString n).toList := rfl

theorem unmarshal_int (d : Enum Int) (n : Int) :
    d.UnmarshalJSON (toString n).toList = .ok (New n) := by
  simp only [Enum.UnmarshalJSON, JSONScalar.Unmarshal, parseDecimal_toString]
  rfl

theorem marshal_string (v : String) :
    (New v).MarshalJSON = .ok ('"' :: (v.toList ++ ['"'])) := rfl

theorem unmarshal_string (d : Enum String) (v : String) :
    d.UnmarshalJSON ('"' :: (v.toList ++ ['"'])) = .ok (New v) := by
  simp only [Enum.UnmarshalJSON, JSONScalar.Unmarshal, unquote_quoted]
  rfl

theorem unmarshalComposite_of_member {T : Type} [JSONScalar T] (c t : TestComposite T)
    (data : List Char) (hm : c.TestType.Enum.MarshalJSON = .ok data)
    (hu : t.TestType.Enum.UnmarshalJSON data = .ok c.TestType.Enum) :
    ∃ bytes, marshalComposite c = .ok bytes ∧
      unmarshalComposite t bytes = .ok ⟨{ t.TestType with Enum := c.TestType.Enum }⟩ := by
  refine ⟨"\x7b\"test_type\":".toList ++ data ++ "\x7d".toList,
    by simp only [marshalComposite, Enummer.MarshalJSON, hm], ?_⟩
  simp only [unmarshalComposite, Enummer.UnmarshalJSON, List.append_assoc,
    dropPrefix_append, dropSuffix_append, hu]

/-! ## Family identity -/

/-- C11: the family of an instance does not depend on how it is held.  For a concrete
type `C` that is not itself a pointer type, `getEnummerType` of a pointer to `C` and of a
`C` held by value are both `C`; so, whichever way each operand is held,
`compareEnummerType` is true exactly when the two concrete types are equal, and `Equal`
returns the comparison of the held values when they are equal and panics when they
differ (only the text of the panic, which prints the dynamic types, depends on the
holding). -/
theorem family_independent_of_holding {T : Type} [DecidableEq T] (C D : RType)
    (hC : C.Kind ≠ Kind.Ptr) (hD : D.Kind ≠ Kind.Ptr) (p q : Nat) (x y : Enum T) :
    getEnummerType (heldByPointer C p x) = C ∧ getEnummerType (heldByValue C p x) = C ∧
      ∀ a ∈ [heldByPointer C p x, heldByValue C p x],
        ∀ b ∈ [heldByPointer D q y, heldByValue D q y],
          compareEnummerType a b = decide (C = D) ∧
          (C = D → Equal a b = .ok (decide (x.GetValue = y.GetValue))) ∧
          (C ≠ D → ∃ msg, Equal a b = .error msg) := by
  have hpC : getEnummerType (heldByPointer C p x) = C := by
    simp [getEnummerType, heldByPointer, RType.Kind, RType.Elem]
  have hvC : getEnummerType (heldByValue C p x) = C := by
    simp [getEnummerType, heldByValue, hC]
  have hpD : getEnummerType (heldByPointer D q y) = D := by
    simp [getEnummerType, heldByPointer, RType.Kind, RType.Elem]
  have hvD : getEnummerType (heldByValue D q y) = D := by
    simp [getEnummerType, heldByValue, hD]
  refine ⟨hpC, hvC, ?_⟩
  intro a ha b hb
  have hta : getEnummerType a = C ∧ a.GetValue = x.GetValue := by
    simp only [List.mem_cons, List.mem_singleton, List.not_mem_nil, or_false] at ha
    rcases ha with rfl | rfl
    · exact ⟨hpC, rfl⟩
    · exact ⟨hvC, rfl⟩
  have htb : getEnummerType b = D ∧ b.GetValue = y.GetValue := by
    simp only [List.mem_cons, List.mem_singleton, List.not_mem_nil, or_false] at hb
    rcases hb with rfl | rfl
    · exact ⟨hpD, rfl⟩
    · exact ⟨hvD, rfl⟩
  refine ⟨by simp [compareEnummerType, hta.1, htb.1], ?_, ?_⟩
  · intro hCD
    rw [Equal_of_same_type a b (by rw [hta.1, htb.1, hCD]), hta.2, htb.2]
  · intro hCD
    exact ⟨_, Equal_of_different_type a b (by rw [hta.1, htb.1]; exact hCD)⟩

theorem family_independent_of_holding_witness :
    getEnummerType (heldByPointer (.named "enum.TestTypeInt") 0 (New (1 : Int))) =
        .named "enum.TestTypeInt" ∧
      getEnummerType (heldByValue (.named "enum.TestTypeInt") 0 (New (1 : Int))) =
        .named "enum.TestTypeInt" ∧
      ∀ a ∈ [heldByPointer (.named "enum.TestTypeInt") 0 (New (1 : Int)),
          heldByValue (.named "enum.TestTypeInt") 0 (New (1 : Int))],
        ∀ b ∈ [heldByPointer (.named "enum.Test2TypeInt") 1 (New (1 : Int)),
            heldByValue (.named "enum.Test2TypeInt") 1 (New (1 : Int))],
          compareEnummerType a b =
            decide (RType.named "enum.TestTypeInt" = RType.named "enum.Test2TypeInt") ∧
          (RType.named "enum.TestTypeInt" = RType.named "enum.Test2TypeInt" →
            Equal a b = .ok (decide ((New (1 : Int)).GetValue = (New (1 : Int)).GetValue))) ∧
          (RType.named "enum.TestTypeInt" ≠ RType.named "enum.Test2TypeInt" →
            ∃ msg, Equal a b = .error msg) :=
  family_independent_of_holding (.named "enum.TestTypeInt") (.named "enum.Test2TypeInt")
    (by decide) (by decide) 0 1 (New 1) (New 1)

/-! ## The container -/

/-- C12: for every integer and every string `v`, `UnmarshalJSON` of any container on the
bytes that `MarshalJSON` of a container holding `v` returns gives no error and leaves
the container holding `v`; the same for a family member embedding the container (which
keeps its type and identity) and for a composite carrier with such a member as
field. -/
theorem json_round_trip :
    (∀ (v : Int) (d : Enum Int), ∃ data,
        (New v).MarshalJSON = .ok data ∧ d.UnmarshalJSON data = .ok (New v)) ∧
      (∀ (v : String) (d : Enum String), ∃ data,
        (New v).MarshalJSON = .ok data ∧ d.UnmarshalJSON data = .ok (New v)) ∧
      (∀ (a d : Enummer Int), ∃ data,
        a.MarshalJSON = .ok data ∧ d.UnmarshalJSON data = .ok { d with Enum := a.Enum }) ∧
      (∀ (a d : Enummer String), ∃ data,
        a.MarshalJSON = .ok data ∧ d.UnmarshalJSON data = .ok { d with Enum := a.Enum }) ∧
      (∀ (c t : TestComposite Int), ∃ data,
        marshalComposite c = .ok data ∧
        unmarshalComposite t data = .ok ⟨{ t.TestType with Enum := c.TestType.Enum }⟩) ∧
      (∀ (c t : TestComposite String), ∃ data,
        marshalComposite c = .ok data ∧
        unmarshalComposite t data = .ok ⟨{ t.TestType with Enum := c.TestType.Enum }⟩) := by
  refine ⟨?_, ?_, ?_, ?_, ?_, ?_⟩
  · exact fun v d => ⟨_, marshal_int v, unmarshal_int d v⟩
  · exact fun v d => ⟨_, marshal_string v, unmarshal_string d v⟩
  · intro a d
    refine ⟨_, marshal_int a.Enum.val, ?_⟩
    simp only [Enummer.UnmarshalJSON, unmarshal_int]
    rfl
  · intro a d
    refine ⟨_, marshal_string a.Enum.val, ?_⟩
    simp only [Enummer.UnmarshalJSON, unmarshal_string]
    rfl
  · intro c t
    exact unmarshalComposite_of_member c t _ (marshal_int c.TestType.Enum.val)
      (unmarshal_int _ _)
  · intro c t
    exact unmarshalComposite_of_member c t _ (marshal_string c.TestType.Enum.val)
      (unmarshal_string _ _)

/-- C13: `e.Scan(sv)` returns no error exactly when the dynamic type of `sv` is `T`, and
then the container holds the value of `sv`; for any other dynamic type it returns an
error and leaves the container unchanged, as for an `int64` or nil given to an
`Enum[int]`. -/
theorem Scan_succeeds_iff {T : Type} [TypeName T] (e : Enum T) (sv : GoAny T) :
    ((e.Scan sv).2 = none ↔ ∃ v, sv = .ofT v) ∧
      (∀ v, sv = .ofT v → e.Scan sv = (New v, none)) ∧
      (∀ n, sv = .other n → (e.Scan sv).1 = e ∧ ∃ msg, (e.Scan sv).2 = some msg) ∧
      (New (1 : Int)).Scan (.other "int64") =
        (New 1, some "enum: cannot convert 'int64' to '*enum.Enum[int]'") ∧
      (New (1 : Int)).Scan (.other "<nil>") =
        (New 1, some "enum: cannot convert '<nil>' to '*enum.Enum[int]'") := by
  refine ⟨?_, ?_, ?_, by decide, by decide⟩
  · cases sv with
    | ofT v => simp [Enum.Scan]
    | other n => simp [Enum.Scan]
  · rintro v rfl; rfl
  · rintro n rfl; exact ⟨rfl, _, rfl⟩

/-- C14: `e.Value()` returns no error, and the value it returns is the held scalar, the
one `e.GetValue()` returns, with dynamic type `T`. -/
theorem Value_returns_held_scalar {T : Type} (e : Enum T) :
    e.Value = (.ofT e.GetValue, none) := rfl

/-- C15: `New(v)` is the container holding `v` and `New(v).GetValue()` is `v`; `GetValue`
is total and returns the same value through a family struct embedding the container,
whatever the type and identity of the struct. -/
theorem New_GetValue {T : Type} (v : T) :
    New v = ⟨v⟩ ∧ (New v).GetValue = v ∧
      ∀ (ty : RType) (addr : Nat), (⟨ty, addr, New v⟩ : Enummer T).GetValue = v :=
  ⟨rfl, rfl, fun _ _ => rfl⟩

/-- C16: `e.EqualValue(w)` is true exactly when `e.GetValue()` equals `w`. -/
theorem EqualValue_iff {T : Type} [DecidableEq T] (e : Enum T) (w : T) :
    (e.EqualValue w = true ↔ e.GetValue = w) ∧ (e.EqualValue w = false ↔ e.GetValue ≠ w) := by
  simp [Enum.EqualValue, Enum.GetValue]

/-- C17: `e.String()` of an integer container is the decimal literal of the held value:
a minus sign for a negative value, followed by the decimal digits of the absolute value,
and it reads back as the held value; `e.String()` of a string container is the held
string itself. -/
theorem String_renders_scalar :
    (∀ e : Enum Int,
        e.String.toList =
          (if e.GetValue < 0 then '-' :: Nat.toDigits 10 e.GetValue.natAbs
            else Nat.toDigits 10 e.GetValue.natAbs) ∧
        parseDecimal e.String.toList = some e.GetValue) ∧
      (∀ e : Enum String, e.String = e.GetValue) ∧
      (New (-12 : Int)).String = "-12" ∧ (New (7 : Int)).String = "7" ∧
      (New "passed").String = "passed" := by
  refine ⟨fun e => ⟨toString_int_toList e.val, parseDecimal_toString e.val⟩,
    fun e => rfl, by decide, by decide, by decide⟩

/-- C18: `MarshalJSON` of a container returns no error and encodes the held scalar only:
an integer as its decimal literal (the bytes `1` for 1), a string as the string between
double quotes; a family member embedding the container gives the bytes of the
container, not an object. -/
theorem MarshalJSON_encodes_scalar :
    (∀ e : Enum Int,
        e.MarshalJSON = .ok e.String.toList ∧ parseDecimal e.String.toList = some e.GetValue) ∧
      (∀ e : Enum String, e.MarshalJSON = .ok ('"' :: (e.GetValue.toList ++ ['"']))) ∧
      (New (1 : Int)).MarshalJSON = .ok "1".toList ∧
      (New "hello").MarshalJSON = .ok "\"hello\"".toList ∧
      (∀ m : Enummer Int, m.MarshalJSON = (New m.GetValue).MarshalJSON) ∧
      (∀ m : Enummer String, m.MarshalJSON = (New m.GetValue).MarshalJSON) ∧
      (TestTypeInt 0 1).MarshalJSON = .ok "1".toList := by
  refine ⟨fun e => ⟨rfl, parseDecimal_toString e.val⟩, fun e => rfl, by decide, by decide,
    fun m => rfl, fun m => rfl, by decide⟩

/-! ## The order of a list -/

theorem compareGetIndex_ok_accepts {T : Type} [DecidableEq T] [Scalar T]
    (L : List (Enummer T)) (hne : L ≠ [])
    (hfam : ∀ x ∈ L, ∀ y ∈ L, getEnummerType x = getEnummerType y)
    (e : Enummer T) (ie : Int) (h : compareGetIndex L e = .ok ie) :
    (∀ x ∈ L, getEnummerType x = getEnummerType e) ∧ (∃ x ∈ L, x.GetValue = e.GetValue) := by
  have hnot : ¬ ((∃ x ∈ L, getEnummerType e ≠ getEnummerType x) ∨
      (∀ x ∈ L, x.GetValue ≠ e.GetValue)) := by
    rw [← compareGetIndex_error_iff L e hne hfam, h]
    rintro ⟨msg, hmsg⟩
    cases hmsg
  constructor
  · intro x hx
    by_contra hxe
    exact hnot (Or.inl ⟨x, hx, fun h2 => hxe h2.symm⟩)
  · by_contra hno
    exact hnot (Or.inr (fun x hx hxv => hno ⟨x, hx, hxv⟩))

theorem compareGetIndex_ok_first {T : Type} [DecidableEq T] [Scalar T]
    (L : List (Enummer T)) (hne : L ≠ [])
    (hfam : ∀ x ∈ L, ∀ y ∈ L, getEnummerType x = getEnummerType y)
    (e : Enummer T) (ie : Int) (h : compareGetIndex L e = .ok ie) :
    ∃ (i : Nat) (hi : i < L.length), ie = (i : Int) ∧ L[i].GetValue = e.GetValue ∧
      ∀ (k : Nat) (hk : k < L.length), k < i → L[k].GetValue ≠ e.GetValue := by
  obtain ⟨hty, hex⟩ := compareGetIndex_ok_accepts L hne hfam e ie h
  rw [compareGetIndex_of_found L e hty hex] at h
  have hlt : L.findIdx (fun x => decide (e.GetValue = x.GetValue)) < L.length := by
    rw [List.findIdx_lt_length]
    obtain ⟨x, hx, hxv⟩ := hex
    exact ⟨x, hx, by simp [hxv]⟩
  refine ⟨_, hlt, ?_, ?_, ?_⟩
  · injection h with h
    exact h.symm
  · have := @List.findIdx_getElem _ (fun x => decide (e.GetValue = x.GetValue)) L hlt
    simp only [decide_eq_true_eq] at this
    exact this.symm
  · intro k hk hki
    have := @List.not_of_lt_findIdx _ (fun x => decide (e.GetValue = x.GetValue)) L k hki
    simp only [decide_eq_false_iff_not] at this
    exact fun h2 => this h2.symm

/-- C19: for a non-empty single-family list `L`, `LessThanOrEqual(L)` is a total preorder
on the operands of the family of `L` whose values occur in `L`: on such operands it
returns, it is reflexive and transitive, and of `LessThanOrEqual(L)(a, b)` and
`LessThanOrEqual(L)(b, a)` at least one is true. -/
theorem LessThanOrEqual_total_preorder {T : Type} [DecidableEq T] [Scalar T]
    (L : List (Enummer T)) (hne : L ≠ [])
    (hfam : ∀ x ∈ L, ∀ y ∈ L, getEnummerType x = getEnummerType y) :
    ∃ le, LessThanOrEqual L = .ok le ∧
      (∀ a : Enummer T,
        ((∀ x ∈ L, getEnummerType a = getEnummerType x) ∧
          (∃ x ∈ L, x.GetValue = a.GetValue)) →
        le a a = .ok true) ∧
      (∀ a b c : Enummer T,
        ((∀ x ∈ L, getEnummerType a = getEnummerType x) ∧
          (∃ x ∈ L, x.GetValue = a.GetValue)) →
        ((∀ x ∈ L, getEnummerType b = getEnummerType x) ∧
          (∃ x ∈ L, x.GetValue = b.GetValue)) →
        ((∀ x ∈ L, getEnummerType c = getEnummerType x) ∧
          (∃ x ∈ L, x.GetValue = c.GetValue)) →
        le a b = .ok true → le b c = .ok true → le a c = .ok true) ∧
      (∀ a b : Enummer T,
        ((∀ x ∈ L, getEnummerType a = getEnummerType x) ∧
          (∃ x ∈ L, x.GetValue = a.GetValue)) →
        ((∀ x ∈ L, getEnummerType b = getEnummerType x) ∧
          (∃ x ∈ L, x.GetValue = b.GetValue)) →
        (∃ r, le a b = .ok r) ∧ (le a b = .ok true ∨ le b a = .ok true)) := by
  obtain ⟨-, -, -, h4⟩ := comparators_ok L hne hfam
  have hcw : ∀ a b : Enummer T,
      ((∀ x ∈ L, getEnummerType a = getEnummerType x) ∧
        (∃ x ∈ L, x.GetValue = a.GetValue)) →
      ((∀ x ∈ L, getEnummerType b = getEnummerType x) ∧
        (∃ x ∈ L, x.GetValue = b.GetValue)) →
      compareWith (fun ai bi => decide (ai ≤ bi)) L a b =
        .ok (decide (L.findIdx (fun x => decide (a.GetValue = x.GetValue)) ≤
          L.findIdx (fun x => decide (b.GetValue = x.GetValue)))) := by
    intro a b ha hb
    rw [compareWith_of_found _ L a b (fun x hx => (ha.1 x hx).symm) ha.2
      (fun x hx => (hb.1 x hx).symm) hb.2]
    simp
  refine ⟨_, h4, ?_, ?_, ?_⟩
  · intro a ha
    simp only [hcw a a ha ha]
    simp
  · intro a b c ha hb hc hab hbc
    simp only [hcw a b ha hb, hcw b c hb hc, hcw a c ha hc, Except.ok.injEq,
      decide_eq_true_eq] at hab hbc ⊢
    exact Nat.le_trans hab hbc
  · intro a b ha hb
    simp only [hcw a b ha hb, hcw b a hb ha, Except.ok.injEq, decide_eq_true_eq]
    exact ⟨⟨_, rfl⟩, Nat.le_total _ _⟩

theorem LessThanOrEqual_total_preorder_witness :
    ∃ le, LessThanOrEqual TestTypeIntTwice = .ok le ∧
      (∀ a : Enummer Int,
        ((∀ x ∈ TestTypeIntTwice, getEnummerType a = getEnummerType x) ∧
          (∃ x ∈ TestTypeIntTwice, x.GetValue = a.GetValue)) →
        le a a = .ok true) ∧
      (∀ a b c : Enummer Int,
        ((∀ x ∈ TestTypeIntTwice, getEnummerType a = getEnummerType x) ∧
          (∃ x ∈ TestTypeIntTwice, x.GetValue = a.GetValue)) →
        ((∀ x ∈ TestTypeIntTwice, getEnummerType b = getEnummerType x) ∧
          (∃ x ∈ TestTypeIntTwice, x.GetValue = b.GetValue)) →
        ((∀ x ∈ TestTypeIntTwice, getEnummerType c = getEnummerType x) ∧
          (∃ x ∈ TestTypeIntTwice, x.GetValue = c.GetValue)) →
        le a b = .ok true → le b c = .ok true → le a c = .ok true) ∧
      (∀ a b : Enummer Int,
        ((∀ x ∈ TestTypeIntTwice, getEnummerType a = getEnummerType x) ∧
          (∃ x ∈ TestTypeIntTwice, x.GetValue = a.GetValue)) →
        ((∀ x ∈ TestTypeIntTwice, getEnummerType b = getEnummerType x) ∧
          (∃ x ∈ TestTypeIntTwice, x.GetValue = b.GetValue)) →
        (∃ r, le a b = .ok r) ∧ (le a b = .ok true ∨ le b a = .ok true)) :=
  LessThanOrEqual_total_preorder TestTypeIntTwice (by decide) (by decide)

/-- C20: for a non-empty single-family list `L` and operands `a`, `b` that
`compareGetIndex` accepts, giving the indices `ia` and `ib`: each index is the least
position of `L` whose element holds the value of the operand (whether or not the
operand is an element of `L`, and whatever duplicates `L` has), and the four
comparators return `ia > ib`, `ia >= ib`, `ia < ib` and `ia <= ib`. -/
theorem comparators_use_first_index {T : Type} [DecidableEq T] [Scalar T]
    (L : List (Enummer T)) (hne : L ≠ [])
    (hfam : ∀ x ∈ L, ∀ y ∈ L, getEnummerType x = getEnummerType y)
    (a b : Enummer T) (ia ib : Int)
    (ha : compareGetIndex L a = .ok ia) (hb : compareGetIndex L b = .ok ib) :
    (∃ (i : Nat) (hi : i < L.length), ia = (i : Int) ∧ L[i].GetValue = a.GetValue ∧
        ∀ (k : Nat) (hk : k < L.length), k < i → L[k].GetValue ≠ a.GetValue) ∧
      (∃ (j : Nat) (hj : j < L.length), ib = (j : Int) ∧ L[j].GetValue = b.GetValue ∧
        ∀ (k : Nat) (hk : k < L.length), k < j → L[k].GetValue ≠ b.GetValue) ∧
      (∃ f, GreaterThan L = .ok f ∧ f a b = .ok (decide (ia > ib))) ∧
      (∃ f, GreaterThanOrEqual L = .ok f ∧ f a b = .ok (decide (ia ≥ ib))) ∧
      (∃ f, LessThan L = .ok f ∧ f a b = .ok (decide (ia < ib))) ∧
      (∃ f, LessThanOrEqual L = .ok f ∧ f a b = .ok (decide (ia ≤ ib))) := by
  obtain ⟨h1, h2, h3, h4⟩ := comparators_ok L hne hfam
  have hcw : ∀ op : Int → Int → Bool, compareWith op L a b = .ok (op ia ib) := by
    intro op
    simp only [compareWith, ha, hb]
  exact ⟨compareGetIndex_ok_first L hne hfam a ia ha,
    compareGetIndex_ok_first L hne hfam b ib hb,
    ⟨_, h1, hcw _⟩, ⟨_, h2, hcw _⟩, ⟨_, h3, hcw _⟩, ⟨_, h4, hcw _⟩⟩

theorem comparators_use_first_index_witness :
    (∃ (i : Nat) (hi : i < TestTypeIntTwice.length), (0 : Int) = (i : Int) ∧
        TestTypeIntTwice[i].GetValue = (TestTypeInt 7 1).GetValue ∧
        ∀ (k : Nat) (hk : k < TestTypeIntTwice.length), k < i →
          TestTypeIntTwice[k].GetValue ≠ (TestTypeInt 7 1).GetValue) ∧
      (∃ (j : Nat) (hj : j < TestTypeIntTwice.length), (0 : Int) = (j : Int) ∧
        TestTypeIntTwice[j].GetValue = (TestTypeInt 1 1).GetValue ∧
        ∀ (k : Nat) (hk : k < TestTypeIntTwice.length), k < j →
          TestTypeIntTwice[k].GetValue ≠ (TestTypeInt 1 1).GetValue) ∧
      (∃ f, GreaterThan TestTypeIntTwice = .ok f ∧
        f (TestTypeInt 7 1) (TestTypeInt 1 1) = .ok (decide ((0 : Int) > 0))) ∧
      (∃ f, GreaterThanOrEqual TestTypeIntTwice = .ok f ∧
        f (TestTypeInt 7 1) (TestTypeInt 1 1) = .ok (decide ((0 : Int) ≥ 0))) ∧
      (∃ f, LessThan TestTypeIntTwice = .ok f ∧
        f (TestTypeInt 7 1) (TestTypeInt 1 1) = .ok (decide ((0 : Int) < 0))) ∧
      (∃ f, LessThanOrEqual TestTypeIntTwice = .ok f ∧
        f (TestTypeInt 7 1) (TestTypeInt 1 1) = .ok (decide ((0 : Int) ≤ 0))) :=
  comparators_use_first_index TestTypeIntTwice (by decide) (by decide)
    (TestTypeInt 7 1) (TestTypeInt 1 1) 0 0 (by decide) (by decide)

/-! ## Lemmas on symmetry and on the index returned -/

theorem Equal_ok_comm {T : Type} [DecidableEq T] (a b : Enummer T) (r : Bool) :
    Equal a b = .ok r ↔ Equal b a = .ok r := by
  by_cases h : getEnummerType a = getEnummerType b
  · rw [Equal_of_same_type a b h, Equal_of_same_type b a h.symm]
    have : decide (a.GetValue = b.GetValue) = decide (b.GetValue = a.GetValue) := by
      by_cases hv : a.GetValue = b.GetValue
      · simp [hv]
      · have hv2 : ¬ b.GetValue = a.GetValue := fun h2 => hv h2.symm
        simp [hv, hv2]
    rw [this]
  · rw [Equal_of_different_type a b h, Equal_of_different_type b a (fun h2 => h h2.symm)]
    constructor <;> (intro h2; cases h2)

theorem Equal_error_comm {T : Type} [DecidableEq T] (a b : Enummer T) :
    (∃ msg, Equal a b = .error msg) ↔ (∃ msg, Equal b a = .error msg) := by
  by_cases h : getEnummerType a = getEnummerType b
  · rw [Equal_of_same_type a b h, Equal_of_same_type b a h.symm]
    simp
  · rw [Equal_of_different_type a b h, Equal_of_different_type b a (fun h2 => h h2.symm)]
    simp

theorem IndexFuncFrom_of_exist {T : Type} [DecidableEq T]
    (list : List (Enummer T)) (e : Enummer T) (start : Nat)
    (h : existInEnummerList list e = .ok true) :
    ∃ (k : Nat) (hk : k < list.length),
      IndexFuncFrom (fun elem => Equal e elem) list start = .ok ((start + k : Nat) : Int) ∧
      Equal list[k] e = .ok true ∧ Equal e list[k] = .ok true := by
  induction list generalizing start with
  | nil => simp [existInEnummerList] at h
  | cons x rest ih =>
    rw [existInEnummerList] at h
    cases hx : Equal x e with
    | error msg => rw [hx] at h; cases h
    | ok r =>
      have hx2 : Equal e x = .ok r := (Equal_ok_comm x e r).mp hx
      cases r with
      | true =>
        refine ⟨0, by simp, ?_, by simpa using hx, by simpa using hx2⟩
        rw [IndexFuncFrom, hx2]
        simp
      | false =>
        rw [hx] at h
        obtain ⟨k, hk, hidx, h1, h2⟩ := ih (start + 1) h
        refine ⟨k + 1, by simpa using hk, ?_, by simpa using h1, by simpa using h2⟩
        rw [IndexFuncFrom, hx2]
        simp only [hidx]
        congr 2
        omega

theorem compareGetIndex_ok_exist {T : Type} [DecidableEq T] [Scalar T]
    (list : List (Enummer T)) (e : Enummer T) (r : Int)
    (h : compareGetIndex list e = .ok r) :
    existInEnummerList list e = .ok true ∧
      IndexFunc list (fun elem => Equal e elem) = .ok r := by
  rw [compareGetIndex] at h
  cases hex : existInEnummerList list e with
  | error msg => rw [hex] at h; cases h
  | ok found =>
    cases found with
    | false => rw [hex] at h; cases h
    | true => rw [hex] at h; exact ⟨rfl, h⟩

theorem compareGetIndex_ok_eq_findIdx {T : Type} [DecidableEq T] [Scalar T]
    (L : List (Enummer T)) (hne : L ≠ [])
    (hfam : ∀ x ∈ L, ∀ y ∈ L, getEnummerType x = getEnummerType y)
    (e : Enummer T) (ie : Int) (h : compareGetIndex L e = .ok ie) :
    ie = ((L.findIdx (fun x => decide (e.GetValue = x.GetValue)) : Nat) : Int) := by
  obtain ⟨hty, hex⟩ := compareGetIndex_ok_accepts L hne hfam e ie h
  rw [compareGetIndex_of_found L e hty hex] at h
  injection h with h
  exact h.symm

theorem compareGetIndex_head_different_type {T : Type} [DecidableEq T] [Scalar T]
    (x : Enummer T) (rest : List (Enummer T)) (e : Enummer T)
    (h : getEnummerType e ≠ getEnummerType x) :
    compareGetIndex (x :: rest) e =
      .error ("enum: different types '" ++ x.dynType.String ++ "' and '"
        ++ e.dynType.String ++ "'") := by
  rw [compareGetIndex, existInEnummerList,
    Equal_of_different_type x e (fun h2 => h h2.symm)]

theorem compareWith_error_eq_iff {T : Type} [DecidableEq T] [Scalar T]
    (op : Int → Int → Bool) (list : List (Enummer T)) (a b : Enummer T) (msg : String) :
    compareWith op list a b = .error msg ↔
      (compareGetIndex list a = .error msg ∨
        ((∃ ia, compareGetIndex list a = .ok ia) ∧ compareGetIndex list b = .error msg)) := by
  unfold compareWith
  cases compareGetIndex list a with
  | error m => simp
  | ok ai =>
    cases compareGetIndex list b with
    | error m => simp
    | ok bi => simp

theorem compareWith_swap {T : Type} [DecidableEq T] [Scalar T]
    (op op2 : Int → Int → Bool) (list : List (Enummer T)) (a b : Enummer T)
    (hop : ∀ i j, op i j = op2 j i) (r : Bool) :
    compareWith op list a b = .ok r ↔ compareWith op2 list b a = .ok r := by
  unfold compareWith
  cases compareGetIndex list a with
  | error m =>
    cases compareGetIndex list b with
    | error m2 => simp
    | ok bi => simp
  | ok ai =>
    cases compareGetIndex list b with
    | error m => simp
    | ok bi => simp [hop]

theorem compareWith_same_operands {T : Type} [DecidableEq T] [Scalar T]
    (op op2 : Int → Int → Bool) (list : List (Enummer T)) (a b : Enummer T) :
    ((∃ msg, compareWith op list a b = .error msg) ↔
        (∃ msg, compareWith op2 list a b = .error msg)) ∧
      ((∀ i j, op i j = !op2 i j) →
        ∀ r, compareWith op list a b = .ok r ↔ compareWith op2 list a b = .ok (!r)) := by
  unfold compareWith
  cases compareGetIndex list a with
  | error m => simp
  | ok ai =>
    cases compareGetIndex list b with
    | error m => simp
    | ok bi =>
      refine ⟨by simp, ?_⟩
      intro hop r
      simp only [Except.ok.injEq, hop]
      cases r <;> cases op2 ai bi <;> simp

theorem parseLoop_own_value {T : Type} [DecidableEq T] (L : List (Enummer T))
    (i : Nat) (hi : i < L.length) :
    ∃ (j : Nat) (hj : j < L.length), j ≤ i ∧ parseLoop L L[i].GetValue = some L[j] ∧
      L[j].GetValue = L[i].GetValue ∧
      ∀ (k : Nat) (hk : k < L.length), k < j → L[k].GetValue ≠ L[i].GetValue := by
  have hlt : L.findIdx (fun x => decide (x.GetValue = L[i].GetValue)) < L.length := by
    rw [List.findIdx_lt_length]
    exact ⟨L[i], List.getElem_mem hi, by simp⟩
  have hv : L[L.findIdx (fun x => decide (x.GetValue = L[i].GetValue))].GetValue =
      L[i].GetValue := by
    have := @List.findIdx_getElem _ (fun x => decide (x.GetValue = L[i].GetValue)) L hlt
    simpa using this
  have hbefore : ∀ (k : Nat) (hk : k < L.length),
      k < L.findIdx (fun x => decide (x.GetValue = L[i].GetValue)) →
      L[k].GetValue ≠ L[i].GetValue := by
    intro k hk hkj
    have := @List.not_of_lt_findIdx _ (fun x => decide (x.GetValue = L[i].GetValue)) L k hkj
    simpa using this
  have hle : L.findIdx (fun x => decide (x.GetValue = L[i].GetValue)) ≤ i := by
    by_contra hcon
    exact hbefore i hi (by omega) rfl
  refine ⟨_, hlt, hle, ?_, hv, hbefore⟩
  apply parseLoop_first L _ _ hlt hv
  intro x hx
  rw [List.mem_take_iff_getElem] at hx
  obtain ⟨k, hk, rfl⟩ := hx
  simp only [lt_min_iff] at hk
  exact hbefore k hk.2 hk.1

/-! ## Panic messages -/

/-- C21: for a non-empty single-family list `L` and a raw value `v` that no element of
`L` holds, `MustParse(L)(v)` panics with the message made of `enum: '`, the rendering of
`v` by `%v`, and `' not found`; for the string xxx the message is
`enum: 'xxx' not found`. -/
theorem MustParse_panic_message {T : Type} [DecidableEq T] [Scalar T]
    (L : List (Enummer T)) (hne : L ≠ [])
    (hfam : ∀ x ∈ L, ∀ y ∈ L, getEnummerType x = getEnummerType y)
    (v : T) (hno : ∀ x ∈ L, x.GetValue ≠ v) :
    (∃ m, MustParse L = .ok m ∧
        m v = .error ("enum: '" ++ Scalar.Sprintv v ++ "' not found")) ∧
      (∃ m, MustParse TestStateCompares = .ok m ∧
        m "xxx" = .error "enum: 'xxx' not found") := by
  obtain ⟨-, hm⟩ := parsers_ok L hne hfam
  refine ⟨⟨_, hm, ?_⟩, ⟨_, rfl, by decide⟩⟩
  simp only [(parseLoop_none_iff L v).mpr hno]

theorem MustParse_panic_message_witness :
    (∃ m, MustParse TestTypeIntTwice = .ok m ∧
        m (-5) = .error ("enum: '" ++ Scalar.Sprintv (-5 : Int) ++ "' not found")) ∧
      (∃ m, MustParse TestStateCompares = .ok m ∧
        m "xxx" = .error "enum: 'xxx' not found") :=
  MustParse_panic_message TestTypeIntTwice (by decide) (by decide) (-5) (by decide)

/-- C22 (as stated, refuted): with the single-family list `TestTypeIntTwice`, the
comparators panic on the operand `&Test2TypeInt{Enum[int]{1}}`, whose family is not the
one of the list, with the message of `Equal` on different types, which is not the
message `enum: '1' not found in list`. -/
theorem comparator_family_message_counterexample :
    TestTypeIntTwice ≠ [] ∧
      (∀ x ∈ TestTypeIntTwice, ∀ y ∈ TestTypeIntTwice,
        getEnummerType x = getEnummerType y) ∧
      (∀ x ∈ TestTypeIntTwice, getEnummerType (Test2TypeInt 3 1) ≠ getEnummerType x) ∧
      compareGetIndex TestTypeIntTwice (Test2TypeInt 3 1) =
        .error "enum: different types '*enum.TestTypeInt' and '*enum.Test2TypeInt'" ∧
      (∃ f, GreaterThan TestTypeIntTwice = .ok f ∧
        f (Test2TypeInt 3 1) (TestTypeInt 0 1) =
          .error "enum: different types '*enum.TestTypeInt' and '*enum.Test2TypeInt'") ∧
      "enum: different types '*enum.TestTypeInt' and '*enum.Test2TypeInt'" ≠
        "enum: '" ++ (Test2TypeInt 3 1).String ++ "' not found in list" := by
  refine ⟨by decide, by decide, by decide, by decide, ⟨_, rfl, by decide⟩, by decide⟩

/-- C22 (amended): for a non-empty single-family list `L` with first element `x`, an
operand of the family of `L` whose value no element of `L` holds makes `compareGetIndex`
panic with `enum: '<operand>' not found in list`, and an operand of another family makes
it panic with the message of `Equal`, `enum: different types '<type of x>' and '<type of
the operand>'`; each of the four comparators panics on `(a, b)` with the message that
`compareGetIndex` gives for `a`, or for `b` when `a` is accepted. -/
theorem comparator_panic_messages {T : Type} [DecidableEq T] [Scalar T]
    (L : List (Enummer T)) (hne : L ≠ [])
    (hfam : ∀ x ∈ L, ∀ y ∈ L, getEnummerType x = getEnummerType y)
    (x : Enummer T) (hx : L.head? = some x) :
    (∀ e : Enummer T, getEnummerType e = getEnummerType x →
        (∀ y ∈ L, y.GetValue ≠ e.GetValue) →
        compareGetIndex L e = .error ("enum: '" ++ e.String ++ "' not found in list")) ∧
      (∀ e : Enummer T, getEnummerType e ≠ getEnummerType x →
        compareGetIndex L e =
          .error ("enum: different types '" ++ x.dynType.String ++ "' and '"
            ++ e.dynType.String ++ "'")) ∧
      ∀ cmp ∈ [GreaterThan L, GreaterThanOrEqual L, LessThan L, LessThanOrEqual L],
        ∃ f, cmp = .ok f ∧ ∀ (a b : Enummer T) (msg : String),
          f a b = .error msg ↔
            (compareGetIndex L a = .error msg ∨
              ((∃ ia, compareGetIndex L a = .ok ia) ∧ compareGetIndex L b = .error msg)) := by
  obtain ⟨h1, h2, h3, h4⟩ := comparators_ok L hne hfam
  have hL : ∃ rest, L = x :: rest := by
    cases L with
    | nil => exact absurd rfl hne
    | cons y rest =>
      simp only [List.head?_cons, Option.some.injEq] at hx
      exact ⟨rest, by rw [hx]⟩
  obtain ⟨rest, rfl⟩ := hL
  refine ⟨?_, ?_, ?_⟩
  · intro e hty hno
    have hall : ∀ y ∈ x :: rest, getEnummerType y = getEnummerType e := by
      intro y hy
      rw [hty]
      exact hfam y hy x (List.mem_cons_self _ _)
    exact compareGetIndex_of_absent (x :: rest) e hall hno
  · intro e hty
    exact compareGetIndex_head_different_type x rest e hty
  · intro cmp hcmp
    simp only [List.mem_cons, List.mem_singleton, List.not_mem_nil, or_false] at hcmp
    rcases hcmp with rfl | rfl | rfl | rfl
    · exact ⟨_, h1, fun a b msg => compareWith_error_eq_iff _ _ a b msg⟩
    · exact ⟨_, h2, fun a b msg => compareWith_error_eq_iff _ _ a b msg⟩
    · exact ⟨_, h3, fun a b msg => compareWith_error_eq_iff _ _ a b msg⟩
    · exact ⟨_, h4, fun a b msg => compareWith_error_eq_iff _ _ a b msg⟩

theorem comparator_panic_messages_witness :
    (∀ e : Enummer Int, getEnummerType e = getEnummerType (TestTypeInt 0 1) →
        (∀ y ∈ TestTypeIntTwice, y.GetValue ≠ e.GetValue) →
        compareGetIndex TestTypeIntTwice e =
          .error ("enum: '" ++ e.String ++ "' not found in list")) ∧
      (∀ e : Enummer Int, getEnummerType e ≠ getEnummerType (TestTypeInt 0 1) →
        compareGetIndex TestTypeIntTwice e =
          .error ("enum: different types '" ++ (TestTypeInt 0 1).dynType.String ++ "' and '"
            ++ e.dynType.String ++ "'")) ∧
      ∀ cmp ∈ [GreaterThan TestTypeIntTwice, GreaterThanOrEqual TestTypeIntTwice,
          LessThan TestTypeIntTwice, LessThanOrEqual TestTypeIntTwice],
        ∃ f, cmp = .ok f ∧ ∀ (a b : Enummer Int) (msg : String),
          f a b = .error msg ↔
            (compareGetIndex TestTypeIntTwice a = .error msg ∨
              ((∃ ia, compareGetIndex TestTypeIntTwice a = .ok ia) ∧
                compareGetIndex TestTypeIntTwice b = .error msg)) :=
  comparator_panic_messages TestTypeIntTwice (by decide) (by decide) (TestTypeInt 0 1)
    (by decide)

/-! ## Symmetry and relations between the comparators -/

/-- C23: `Equal` is symmetric in outcome: `Equal(a, b)` panics exactly when `Equal(b, a)`
panics, and they return the same boolean; so for an operand `e` and every element of a
list, the membership test `Equal(element, e)` and the index search `Equal(e, element)`
agree. -/
theorem Equal_symmetric {T : Type} [DecidableEq T] (a b : Enummer T) :
    ((∃ msg, Equal a b = .error msg) ↔ (∃ msg, Equal b a = .error msg)) ∧
      (∀ r, Equal a b = .ok r ↔ Equal b a = .ok r) ∧
      (∀ (list : List (Enummer T)) (e : Enummer T), ∀ elem ∈ list,
        ((∃ msg, Equal elem e = .error msg) ↔ (∃ msg, Equal e elem = .error msg)) ∧
        (∀ r, Equal elem e = .ok r ↔ Equal e elem = .ok r)) :=
  ⟨Equal_error_comm a b, Equal_ok_comm a b,
    fun _ e elem _ => ⟨Equal_error_comm elem e, Equal_ok_comm elem e⟩⟩

/-- C24: for a non-empty single-family list `L` and operands `a`, `b` that the
comparators accept, with indices `ia` and `ib`: `GreaterThanOrEqual(L)(a, b)` is
`GreaterThan(L)(a, b) || Equal(a, b)`, `LessThanOrEqual(L)(a, b)` is
`LessThan(L)(a, b) || Equal(a, b)`, and `ia = ib` exactly when `a` and `b` hold equal
values. -/
theorem or_equal_comparators {T : Type} [DecidableEq T] [Scalar T]
    (L : List (Enummer T)) (hne : L ≠ [])
    (hfam : ∀ x ∈ L, ∀ y ∈ L, getEnummerType x = getEnummerType y)
    (a b : Enummer T) (ia ib : Int)
    (ha : compareGetIndex L a = .ok ia) (hb : compareGetIndex L b = .ok ib) :
    (ia = ib ↔ a.GetValue = b.GetValue) ∧
      ∃ gt ge lt le, GreaterThan L = .ok gt ∧ GreaterThanOrEqual L = .ok ge ∧
        LessThan L = .ok lt ∧ LessThanOrEqual L = .ok le ∧
        ∃ g l e, gt a b = .ok g ∧ lt a b = .ok l ∧ Equal a b = .ok e ∧
          ge a b = .ok (g || e) ∧ le a b = .ok (l || e) := by
  obtain ⟨h1, h2, h3, h4⟩ := comparators_ok L hne hfam
  obtain ⟨hta, hva⟩ := compareGetIndex_ok_accepts L hne hfam a ia ha
  obtain ⟨htb, -⟩ := compareGetIndex_ok_accepts L hne hfam b ib hb
  have hab : getEnummerType a = getEnummerType b := by
    obtain ⟨x, hx, -⟩ := hva
    rw [← hta x hx, ← htb x hx]
  have hia := compareGetIndex_ok_eq_findIdx L hne hfam a ia ha
  have hib := compareGetIndex_ok_eq_findIdx L hne hfam b ib hb
  have hiff : ia = ib ↔ a.GetValue = b.GetValue := by
    rw [hia, hib, ← findIdx_value_eq_iff L a b hva]
    exact Int.ofNat_inj
  have hcw : ∀ op : Int → Int → Bool, compareWith op L a b = .ok (op ia ib) := by
    intro op
    simp only [compareWith, ha, hb]
  refine ⟨hiff, _, _, _, _, h1, h2, h3, h4, _, _, _, hcw _, hcw _,
    Equal_of_same_type a b hab, ?_, ?_⟩
  · rw [hcw]
    congr 1
    by_cases hv : a.GetValue = b.GetValue
    · have := hiff.mpr hv
      simp [hv, this]
    · have hne2 : ia ≠ ib := fun h => hv (hiff.mp h)
      have : (ia ≥ ib) ↔ (ia > ib) := by omega
      simp [hv, this]
  · rw [hcw]
    congr 1
    by_cases hv : a.GetValue = b.GetValue
    · have := hiff.mpr hv
      simp [hv, this]
    · have hne2 : ia ≠ ib := fun h => hv (hiff.mp h)
      have : (ia ≤ ib) ↔ (ia < ib) := by omega
      simp [hv, this]

theorem or_equal_comparators_witness :
    ((0 : Int) = 0 ↔ (TestTypeInt 7 1).GetValue = (TestTypeInt 1 1).GetValue) ∧
      ∃ gt ge lt le, GreaterThan TestTypeIntTwice = .ok gt ∧
        GreaterThanOrEqual TestTypeIntTwice = .ok ge ∧
        LessThan TestTypeIntTwice = .ok lt ∧ LessThanOrEqual TestTypeIntTwice = .ok le ∧
        ∃ g l e, gt (TestTypeInt 7 1) (TestTypeInt 1 1) = .ok g ∧
          lt (TestTypeInt 7 1) (TestTypeInt 1 1) = .ok l ∧
          Equal (TestTypeInt 7 1) (TestTypeInt 1 1) = .ok e ∧
          ge (TestTypeInt 7 1) (TestTypeInt 1 1) = .ok (g || e) ∧
          le (TestTypeInt 7 1) (TestTypeInt 1 1) = .ok (l || e) :=
  or_equal_comparators TestTypeIntTwice (by decide) (by decide)
    (TestTypeInt 7 1) (TestTypeInt 1 1) 0 0 (by decide) (by decide)

/-- C25: for every list `L`, either the four comparators all panic when given `L`, or
they all return a function, and then for all operands `a`, `b`: the four functions panic
on the same `(a, b)`, `GreaterThan(L)(a, b)` returns what `LessThan(L)(b, a)` returns,
`GreaterThanOrEqual(L)(a, b)` returns what `LessThanOrEqual(L)(b, a)` returns, and
`GreaterThanOrEqual(L)(a, b)` returns the negation of `LessThan(L)(a, b)`. -/
theorem comparators_related {T : Type} [DecidableEq T] [Scalar T] (L : List (Enummer T)) :
    ((∃ msg, GreaterThan L = .error msg) ∧ (∃ msg, GreaterThanOrEqual L = .error msg) ∧
        (∃ msg, LessThan L = .error msg) ∧ (∃ msg, LessThanOrEqual L = .error msg)) ∨
      (∃ gt ge lt le, GreaterThan L = .ok gt ∧ GreaterThanOrEqual L = .ok ge ∧
        LessThan L = .ok lt ∧ LessThanOrEqual L = .ok le ∧
        ∀ a b : Enummer T,
          ((∃ msg, gt a b = .error msg) ↔ (∃ msg, ge a b = .error msg)) ∧
          ((∃ msg, gt a b = .error msg) ↔ (∃ msg, lt a b = .error msg)) ∧
          ((∃ msg, gt a b = .error msg) ↔ (∃ msg, le a b = .error msg)) ∧
          (∀ r, gt a b = .ok r ↔ lt b a = .ok r) ∧
          (∀ r, ge a b = .ok r ↔ le b a = .ok r) ∧
          (∀ r, ge a b = .ok r ↔ lt a b = .ok (!r))) := by
  by_cases hbad : ∃ msg, checkEnummerListType L = .error msg
  · left
    have hc := fun cmp hcmp => (comparators_error_iff L cmp hcmp).mpr hbad
    exact ⟨hc (GreaterThan L) (by simp), hc (GreaterThanOrEqual L) (by simp),
      hc (LessThan L) (by simp), hc (LessThanOrEqual L) (by simp)⟩
  · right
    have hgood : checkEnummerListType L = .ok () := by
      by_contra hcon
      exact hbad ((except_unit_error_iff _).mpr hcon)
    obtain ⟨hne, hfam⟩ := (checkEnummerListType_ok_iff L).mp hgood
    obtain ⟨h1, h2, h3, h4⟩ := comparators_ok L hne hfam
    refine ⟨_, _, _, _, h1, h2, h3, h4, ?_⟩
    intro a b
    refine ⟨(compareWith_same_operands _ _ L a b).1, (compareWith_same_operands _ _ L a b).1,
      (compareWith_same_operands _ _ L a b).1, ?_, ?_, ?_⟩
    · exact compareWith_swap _ _ L a b (fun i j => rfl)
    · exact compareWith_swap _ _ L a b (fun i j => rfl)
    · apply (compareWith_same_operands _ _ L a b).2
      intro i j
      by_cases hij : i < j
      · have : ¬ i ≥ j := by omega
        simp [hij, this]
      · have : i ≥ j := by omega
        simp [hij, this]

/-! ## Round trips -/

/-- C26: for a non-empty single-family list `L` and a position `i` of `L`,
`Parse(L)(L[i].GetValue())` is not nil: it is the element at the first position of `L`
holding the value of `L[i]`, a position not after `i`; when the values held by the
elements of `L` are pairwise distinct it is `L[i]`. -/
theorem Parse_own_value {T : Type} [DecidableEq T]
    (L : List (Enummer T)) (hne : L ≠ [])
    (hfam : ∀ x ∈ L, ∀ y ∈ L, getEnummerType x = getEnummerType y)
    (i : Nat) (hi : i < L.length) :
    ∃ f, Parse L = .ok f ∧
      (∃ (j : Nat) (hj : j < L.length), j ≤ i ∧ f L[i].GetValue = some L[j] ∧
        L[j].GetValue = L[i].GetValue ∧
        ∀ (k : Nat) (hk : k < L.length), k < j → L[k].GetValue ≠ L[i].GetValue) ∧
      ((L.map Enummer.GetValue).Nodup → f L[i].GetValue = some L[i]) := by
  have hck : checkEnummerListType L = .ok () :=
    (checkEnummerListType_ok_iff L).mpr ⟨hne, hfam⟩
  refine ⟨fun val => parseLoop L val, by simp [Parse, hck], parseLoop_own_value L i hi, ?_⟩
  intro hnd
  obtain ⟨j, hj, -, hp, hv, -⟩ := parseLoop_own_value L i hi
  have hji : j = i := by
    have hmap : (L.map Enummer.GetValue).get ⟨j, by simpa using hj⟩ =
        (L.map Enummer.GetValue).get ⟨i, by simpa using hi⟩ := by
      simpa using hv
    have hfin := (List.Nodup.get_inj_iff hnd).mp hmap
    exact Fin.mk.inj hfin
  subst hji
  exact hp

theorem Parse_own_value_witness :
    ∃ f, Parse TestStateCompares = .ok f ∧
      (∃ (j : Nat) (hj : j < TestStateCompares.length), j ≤ 3 ∧
        f (TestStateCompares.get ⟨3, by decide⟩).GetValue = some TestStateCompares[j] ∧
        TestStateCompares[j].GetValue = (TestStateCompares.get ⟨3, by decide⟩).GetValue ∧
        ∀ (k : Nat) (hk : k < TestStateCompares.length), k < j →
          TestStateCompares[k].GetValue ≠
            (TestStateCompares.get ⟨3, by decide⟩).GetValue) ∧
      ((TestStateCompares.map Enummer.GetValue).Nodup →
        f (TestStateCompares.get ⟨3, by decide⟩).GetValue =
          some (TestStateCompares.get ⟨3, by decide⟩)) :=
  Parse_own_value TestStateCompares (by decide) (by decide) 3 (by decide)

/-- C27: for containers `e` and `d` of the same scalar type, `e.Value()` returns no
error, and `d.Scan` of the value it returns gives no error and leaves `d` holding the
value of `e`; the same through family members embedding the containers. -/
theorem storage_round_trip {T : Type} [TypeName T] (e d : Enum T) :
    (e.Value).2 = none ∧ d.Scan (e.Value).1 = (New e.GetValue, none) ∧
      ∀ (a b : Enummer T), (a.Value).2 = none ∧
        (b.Scan (a.Value).1).2 = none ∧
        (b.Scan (a.Value).1).1.GetValue = a.GetValue ∧
        (b.Scan (a.Value).1).1.dynType = b.dynType :=
  ⟨rfl, rfl, fun _ _ => ⟨rfl, rfl, rfl, rfl⟩⟩

/-! ## Internal properties -/

/-- C28: whenever `compareGetIndex(L, e)` returns, on any list `L`, its result is a
position of `L` (`0 <= result < len(L)`), so it is not the `-1` of an index search
without match: the element at that position is matched by the membership test and by
the index search. -/
theorem compareGetIndex_valid_position {T : Type} [DecidableEq T] [Scalar T]
    (L : List (Enummer T)) (e : Enummer T) (r : Int)
    (h : compareGetIndex L e = .ok r) :
    0 ≤ r ∧ r < (L.length : Int) ∧ r ≠ -1 ∧
      ∃ (i : Nat) (hi : i < L.length), r = (i : Int) ∧
        Equal L[i] e = .ok true ∧ Equal e L[i] = .ok true := by
  obtain ⟨hex, hidx⟩ := compareGetIndex_ok_exist L e r h
  obtain ⟨k, hk, hfrom, h1, h2⟩ := IndexFuncFrom_of_exist L e 0 hex
  rw [IndexFunc, hfrom] at hidx
  injection hidx with hidx
  simp only [Nat.zero_add] at hidx
  subst hidx
  refine ⟨by omega, by omega, by omega, k, hk, rfl, h1, h2⟩

theorem compareGetIndex_valid_position_witness :
    (0 : Int) ≤ 3 ∧ (3 : Int) < (TestStateCompares.length : Int) ∧ (3 : Int) ≠ -1 ∧
      ∃ (i : Nat) (hi : i < TestStateCompares.length), (3 : Int) = (i : Int) ∧
        Equal TestStateCompares[i] TestStateCompareFailed = .ok true ∧
        Equal TestStateCompareFailed TestStateCompares[i] = .ok true :=
  compareGetIndex_valid_position TestStateCompares TestStateCompareFailed 3 (by decide)

/-- C29: the pairwise check of `checkEnummerListType` accepts a list exactly when the
list is non-empty and every element has the same family as the first element
(`sameFamilyAsFirst`), and it panics exactly when that fails; `compareEnummerType` is
reflexive, symmetric and transitive. -/
theorem checkEnummerListType_refines {T : Type} (list : List (Enummer T)) :
    (checkEnummerListType list = .ok () ↔ sameFamilyAsFirst list = true) ∧
      ((∃ msg, checkEnummerListType list = .error msg) ↔ sameFamilyAsFirst list = false) ∧
      (∀ a : Enummer T, compareEnummerType a a = true) ∧
      (∀ a b : Enummer T, compareEnummerType a b = true → compareEnummerType b a = true) ∧
      (∀ a b c : Enummer T, compareEnummerType a b = true → compareEnummerType b c = true →
        compareEnummerType a c = true) := by
  have hiff : checkEnummerListType list = .ok () ↔ sameFamilyAsFirst list = true := by
    rw [checkEnummerListType_ok_iff]
    cases list with
    | nil => simp [sameFamilyAsFirst]
    | cons first rest =>
      simp only [sameFamilyAsFirst, List.all_eq_true, compareEnummerType,
        decide_eq_true_eq]
      constructor
      · rintro ⟨-, h⟩ e he
        exact h first (List.mem_cons_self _ _) e he
      · intro h
        refine ⟨by simp, ?_⟩
        intro x hx y hy
        rw [← h x hx, ← h y hy]
  refine ⟨hiff, ?_, ?_, ?_, ?_⟩
  · rw [except_unit_error_iff, Ne, hiff]
    simp
  · intro a
    simp [compareEnummerType]
  · intro a b h
    simp only [compareEnummerType, decide_eq_true_eq] at h ⊢
    exact h.symm
  · intro a b c h1 h2
    simp only [compareEnummerType, decide_eq_true_eq] at h1 h2 ⊢
    exact h1.trans h2

end enum
